import Mathlib

set_option maxRecDepth 40000

/-!
Shallow embedding of `lf-parser.py`, a bidirectional codec between Fisnar
".LF" binary motion-control files and an editable plaintext form.

Binary data is modeled as `List Nat` (one entry per byte, each `< 256`);
text is modeled as `List Nat` of Unicode code points, so that Python's
string operations (`strip`, `split`, `splitlines`, substring search,
`split(sep, 1)`) can be embedded faithfully and executably.

Python `float` objects enter the codec in two ways that are abstracted:
  * the textual display of an IEEE binary value (`f"{p:.6g}"`, `str(val)`)
    is taken as an explicit function parameter (`PyOps.fmtRec`, `PyOps.fmtSys`)
    from the 32-bit little-endian bit pattern to the displayed code points;
  * the conversion of a parsed numeric value to 4 little-endian float32
    bytes (`struct.pack("<f", ...)`) is the function parameter `PyOps.packF32`
    (returning `none` where CPython would raise).
Everything else — integer fields, scaled fixed-point fields, bit fields,
strings, hex dumps, tokenization, and the raw-capture escape hatch — is
modeled concretely from the source.
-/

/-- Text as a list of Unicode code points. -/
abbrev Txt := List Nat

/-- Code points of a string literal. -/
def chars (s : String) : Txt := s.data.map Char.toNat

/-- Python line-break code points recognized by `str.splitlines`. -/
def isLB (c : Nat) : Bool :=
  c = 10 || c = 11 || c = 12 || c = 13 || c = 28 || c = 29 || c = 30 ||
  c = 133 || c = 8232 || c = 8233

/-- Code points for which Python's `str.isspace` holds (the ones reachable
here; `str.strip()` and `str.split()` with no argument use this class). -/
def isPySpace (c : Nat) : Bool :=
  c = 32 || c = 9 || c = 10 || c = 11 || c = 12 || c = 13 ||
  c = 28 || c = 29 || c = 30 || c = 31 || c = 133 || c = 160

/-- Auxiliary for `splitlinesPy`: accumulates the current line (reversed);
`"\r\n"` counts as a single break. -/
def slAux : Txt → Txt → List Txt
  | [], acc => if acc.isEmpty then [] else [acc.reverse]
  | c :: rest, acc =>
      if c = 13 then
        match rest with
        | [] => acc.reverse :: slAux [] []
        | c2 :: rest2 =>
            if c2 = 10 then acc.reverse :: slAux rest2 []
            else acc.reverse :: slAux (c2 :: rest2) []
      else if isLB c then acc.reverse :: slAux rest []
      else slAux rest (c :: acc)

/-- Python `str.splitlines()`. -/
def splitlinesPy (t : Txt) : List Txt := slAux t []

/-- `"\n".join(lines)`. -/
def joinNL : List Txt → Txt
  | [] => []
  | [l] => l
  | l :: l2 :: ls => l ++ 10 :: joinNL (l2 :: ls)

/-- `" ".join(words)`. -/
def joinSp : List Txt → Txt
  | [] => []
  | [w] => w
  | w :: w2 :: ws => w ++ 32 :: joinSp (w2 :: ws)

/-- Python `str.strip()` (with no argument). -/
def stripPy (t : Txt) : Txt :=
  ((t.dropWhile isPySpace).reverse.dropWhile isPySpace).reverse

/-- Auxiliary for `splitWS`: the current word is accumulated reversed. -/
def swAux : Txt → Txt → List Txt
  | [], w => if w.isEmpty then [] else [w.reverse]
  | c :: r, w =>
      if isPySpace c then
        if w.isEmpty then swAux r [] else w.reverse :: swAux r []
      else swAux r (c :: w)

/-- Python `str.split()` with no argument (split on whitespace runs). -/
def splitWS (t : Txt) : List Txt := swAux t []

/-- Whether `p` occurs as a contiguous subsequence of `t` (Python `p in t`). -/
def hasSub (p : Txt) : Txt → Bool
  | [] => p.isEmpty
  | c :: r => p.isPrefixOf (c :: r) || hasSub p r

/-- First-occurrence split: `some (before, after)` when `sep` occurs in `t`
(Python `t.split(sep, 1)` when the separator is present). -/
def splitOnce (sep : Txt) : Txt → Option (Txt × Txt)
  | [] => none
  | c :: r =>
      if sep.isPrefixOf (c :: r) then some ([], (c :: r).drop sep.length)
      else (splitOnce sep r).map (fun ab => (c :: ab.1, ab.2))

/-- Python `t.replace(" ", "")`. -/
def dropSpaces (t : Txt) : Txt := t.filter (fun c => c ≠ 32)

/-- Python `str.lower()` restricted to ASCII (sufficient for the values
compared by the code: "1", "true", "yes"). -/
def lowerPy (t : Txt) : Txt :=
  t.map (fun c => if 65 ≤ c && c ≤ 90 then c + 32 else c)

/-- Uppercase hex digit for a value `< 16`. -/
def digCh (d : Nat) : Nat := if d < 10 then 48 + d else 55 + d

/-- `f"{b:02X}"` for a byte. -/
def hex2 (b : Nat) : Txt := [digCh (b / 16 % 16), digCh (b % 16)]

/-- `f"{w:04X}"` for a 16-bit word. -/
def hex4 (w : Nat) : Txt :=
  [digCh (w / 4096 % 16), digCh (w / 256 % 16), digCh (w / 16 % 16), digCh (w % 16)]

/-- `bytes.hex().upper()`: contiguous uppercase hex pairs. -/
def hexConcat (bs : List Nat) : Txt := (bs.map hex2).flatten

/-- `" ".join(f"{b:02X}" for b in bs)`: space-separated hex pairs. -/
def hexRow (bs : List Nat) : Txt := joinSp (bs.map hex2)

/-- Fuel-driven decimal digit expansion (most significant first). -/
def digsAux : Nat → Nat → Txt
  | 0, _ => []
  | _ + 1, 0 => []
  | f + 1, n + 1 => digsAux f ((n + 1) / 10) ++ [48 + (n + 1) % 10]

/-- Decimal digits of a natural number (no sign, `"0"` for zero). -/
def natStr (n : Nat) : Txt := if n = 0 then [48] else digsAux n n

/-- Python `str(i)` for an `int`. -/
def intStr (i : Int) : Txt := if i < 0 then 45 :: natStr i.natAbs else natStr i.toNat

/-- `n` spaces. -/
def spaces (n : Nat) : Txt := List.replicate n 32

/-- Value of a single hex digit (either case), as in `int(c, 16)`. -/
def hexVal (c : Nat) : Option Nat :=
  if 48 ≤ c ∧ c ≤ 57 then some (c - 48)
  else if 65 ≤ c ∧ c ≤ 70 then some (c - 55)
  else if 97 ≤ c ∧ c ≤ 102 then some (c - 87)
  else none

/-- `bytes.fromhex` on a spaceless string: pairs of hex digits. -/
def hexDec : Txt → Option (List Nat)
  | [] => some []
  | [_] => none
  | a :: b :: r =>
      match hexVal a, hexVal b, hexDec r with
      | some ha, some hb, some bs => some ((16 * ha + hb) :: bs)
      | _, _, _ => none

/-- Hex digit run (with CPython's underscore rule: an underscore must sit
between two digits), accumulating into `acc`; `lastDig` records whether the
previous character was a digit.  Returns `none` on a malformed run. -/
def hexRun : Txt → Nat → Bool → Option Nat
  | [], acc, lastDig => if lastDig then some acc else none
  | c :: r, acc, lastDig =>
      if c = 95 then
        if lastDig then
          match r with
          | c' :: _ => if (hexVal c').isSome then hexRun r acc false else none
          | [] => none
        else none
      else
        match hexVal c with
        | some h => hexRun r (16 * acc + h) true
        | none => none

/-- Python `int(t, 16)` (optional sign, hex digits, underscores between
digits); `none` when CPython raises `ValueError`. -/
def pyHexInt (t : Txt) : Option Int :=
  match t with
  | [] => none
  | c :: r =>
      if c = 43 then (hexRun r 0 false).map (fun n => (n : Int))
      else if c = 45 then (hexRun r 0 false).map (fun n => -(n : Int))
      else (hexRun (c :: r) 0 false).map (fun n => (n : Int))

/-- Decimal digit value. -/
def decVal (c : Nat) : Option Nat :=
  if 48 ≤ c ∧ c ≤ 57 then some (c - 48) else none

/-- Decimal digit run with CPython's underscore rule (see `hexRun`). -/
def decRun : Txt → Nat → Bool → Option Nat
  | [], acc, lastDig => if lastDig then some acc else none
  | c :: r, acc, lastDig =>
      if c = 95 then
        if lastDig then
          match r with
          | c' :: _ => if (decVal c').isSome then decRun r acc false else none
          | [] => none
        else none
      else
        match decVal c with
        | some d => decRun r (10 * acc + d) true
        | none => none

/-- Python `int(t)` in base 10 for a whitespace-free token; `none` when
CPython raises `ValueError`. -/
def pyInt (t : Txt) : Option Int :=
  match t with
  | [] => none
  | c :: r =>
      if c = 43 then (decRun r 0 false).map (fun n => (n : Int))
      else if c = 45 then (decRun r 0 false).map (fun n => -(n : Int))
      else (decRun (c :: r) 0 false).map (fun n => (n : Int))


/-! ### Python float tokens -/

/-- Exact decimal rational `num / 10 ^ exp` (unnormalized), the value of a
parsed float literal.  Kept as a pair so that all arithmetic is plain
`Int`/`Nat` computation. -/
structure DecQ where
  num : Int
  exp : Nat
deriving DecidableEq

/-- The result of CPython `float(token)`. -/
inductive PyF where
  | fin (q : DecQ)
  | inf (neg : Bool)
  | nan
deriving DecidableEq

/-- Maximal run of decimal digits (underscores allowed between digits);
returns accumulated value, digit count and the unconsumed remainder. -/
def mantRun : Txt → Nat → Nat → Bool → Option (Nat × Nat × Txt)
  | [], acc, cnt, _ => some (acc, cnt, [])
  | c :: r, acc, cnt, lastDig =>
      if c = 95 then
        if lastDig then
          match r with
          | c' :: _ => if (decVal c').isSome then mantRun r acc cnt false else none
          | [] => none
        else none
      else
        match decVal c with
        | some d => mantRun r (10 * acc + d) (cnt + 1) true
        | none => some (acc, cnt, c :: r)

/-- Exponent digits (after the sign): requires at least one digit and no
trailing characters. -/
def expDigs (t : Txt) : Option Nat :=
  match mantRun t 0 0 false with
  | some (v, c, []) => if c = 0 then none else some v
  | _ => none

/-- Exponent part of a float literal (after `e`/`E`). -/
def expPart (t : Txt) : Option Int :=
  match t with
  | [] => none
  | c :: r =>
      if c = 43 then (expDigs r).map (fun n => (n : Int))
      else if c = 45 then (expDigs r).map (fun n => -(n : Int))
      else (expDigs (c :: r)).map (fun n => (n : Int))

/-- Value `m / 10^s * 10^e` as an exact decimal rational. -/
def decValue (m : Int) (s : Nat) (e : Int) : DecQ :=
  if 0 ≤ e then ⟨m * 10 ^ e.toNat, s⟩ else ⟨m, s + e.natAbs⟩

/-- Optional exponent suffix applied to mantissa `m / 10^s`. -/
def tailExp (t : Txt) (m : Int) (s : Nat) : Option DecQ :=
  match t with
  | [] => some (decValue m s 0)
  | 101 :: r => (expPart r).map (decValue m s)
  | 69 :: r => (expPart r).map (decValue m s)
  | _ => none

/-- Unsigned core of CPython `float(token)`. -/
def pyFloatCore (t : Txt) : Option PyF :=
  if lowerPy t = chars "inf" ∨ lowerPy t = chars "infinity" then some (.inf false)
  else if lowerPy t = chars "nan" then some .nan
  else
    match mantRun t 0 0 false with
    | none => none
    | some (ip, ic, rest) =>
      match rest with
      | 46 :: r2 =>
        match mantRun r2 0 0 false with
        | none => none
        | some (fp, fc, rest2) =>
          if ic + fc = 0 then none
          else (tailExp rest2 ((ip : Int) * 10 ^ fc + (fp : Int)) fc).map .fin
      | _ =>
        if ic = 0 then none else (tailExp rest (ip : Int) 0).map .fin

/-- Sign applied to a parsed float value (`float("-nan")` is `nan`). -/
def pyfNeg : PyF → PyF
  | .fin q => .fin ⟨-q.num, q.exp⟩
  | .inf _ => .inf true
  | .nan => .nan

/-- CPython `float(token)` for a whitespace-free token; `none` when CPython
raises `ValueError`. -/
def pyFloat (t : Txt) : Option PyF :=
  match t with
  | [] => pyFloatCore []
  | c :: r =>
      if c = 43 then pyFloatCore r
      else if c = 45 then (pyFloatCore r).map pyfNeg
      else pyFloatCore (c :: r)

/-- Whether `float(token)` succeeds. -/
def pyFloatOk (t : Txt) : Bool := (pyFloat t).isSome

/-- `int(f)` for a Python float: truncation toward zero; errors on nan/inf. -/
def pyfToInt : PyF → Option Int
  | .fin q => some (Int.tdiv q.num (10 ^ q.exp))
  | _ => none

/-- Python `round(q)` with no digits: round half to even. -/
def pyRound (q : DecQ) : Int :=
  let den : Int := 10 ^ q.exp
  let f := Int.fdiv q.num den
  let r2 := 2 * (q.num - f * den)
  if r2 < den then f
  else if den < r2 then f + 1
  else if f % 2 = 0 then f else f + 1

/-- `q * k` for a natural scale factor. -/
def decqMul (q : DecQ) (k : Nat) : DecQ := ⟨q.num * k, q.exp⟩


/-! ### Byte buffers -/

/-- Byte at index `i` (buffers are always long enough at use sites). -/
def byteAt (bs : List Nat) (i : Nat) : Nat := bs.getD i 0

/-- `bs[o : o+n]`. -/
def sliceLen (bs : List Nat) (o n : Nat) : List Nat := (bs.drop o).take n

/-- Overwrite `vs` into `bs` starting at `o` (`struct.pack_into` / slice
assignment; in-range at every use site). -/
def writeAt (bs : List Nat) (o : Nat) (vs : List Nat) : List Nat :=
  bs.take o ++ vs ++ bs.drop (o + vs.length)

/-- `struct.unpack_from("<H", bs, o)`. -/
def readU16 (bs : List Nat) (o : Nat) : Nat := byteAt bs o + 256 * byteAt bs (o + 1)

/-- `struct.unpack_from("<h", bs, o)`. -/
def readI16 (bs : List Nat) (o : Nat) : Int :=
  let u := readU16 bs o
  if u < 32768 then (u : Int) else (u : Int) - 65536

/-- Little-endian 32-bit pattern at `o` (the argument to float display). -/
def readU32 (bs : List Nat) (o : Nat) : Nat :=
  byteAt bs o + 256 * byteAt bs (o + 1) + 65536 * byteAt bs (o + 2) +
    16777216 * byteAt bs (o + 3)

/-- `struct.unpack_from("<i", bs, o)`. -/
def readI32 (bs : List Nat) (o : Nat) : Int :=
  let u := readU32 bs o
  if u < 2147483648 then (u : Int) else (u : Int) - 4294967296

/-- `struct.unpack_from("<b", bs, o)`. -/
def readI8 (bs : List Nat) (o : Nat) : Int :=
  let b := byteAt bs o
  if b < 128 then (b : Int) else (b : Int) - 256

/-- `struct.pack("<h", v)`: two's-complement LE bytes, or `none` when
`struct.error` is raised (value out of range). -/
def packI16 (v : Int) : Option (List Nat) :=
  if -32768 ≤ v ∧ v ≤ 32767 then
    let u := (v.emod 65536).toNat
    some [u % 256, u / 256]
  else none

/-- `struct.pack("<i", v)`. -/
def packI32 (v : Int) : Option (List Nat) :=
  if -2147483648 ≤ v ∧ v ≤ 2147483647 then
    let u := (v.emod 4294967296).toNat
    some [u % 256, u / 256 % 256, u / 65536 % 256, u / 16777216 % 256]
  else none

/-- `struct.pack("<H", v)` for a nonnegative word. -/
def packU16 (v : Nat) : Option (List Nat) :=
  if v ≤ 65535 then some [v % 256, v / 256] else none

/-- `bytearray[i] = v`: `none` when CPython raises (value not a byte). -/
def assignByte (v : Int) : Option Nat :=
  if 0 ≤ v ∧ v ≤ 255 then some v.toNat else none

/-- Exponent bits of a little-endian float32 pattern; `255` means inf/nan
(where the decoder's `round(p)` call raises). -/
def f32exp (bits : Nat) : Nat := bits / 8388608 % 256


/-! ### Registries (`CMD_ID_TO_NAME`, `sysmem_field_map`) -/

/-- `CMD_ID_TO_NAME`. -/
def cmdTab : List (Nat × String) := [
  (0, "Empty"), (1, "Line Speed"), (2, "Line Passing"), (3, "Arc Point"),
  (4, "Line Start"), (5, "Dispense Dot"), (6, "Output"), (7, "Input"),
  (9, "Wait Point"), (11, "End Program"), (12, "Line End"),
  (13, "Step & Repeat X"), (18, "Stop Point"), (19, "Empty"),
  (20, "Point Dispense Setup"), (21, "Line Dispense Setup"),
  (22, "Z Clearance"), (23, "Dispense End Setup"), (27, "Goto Address"),
  (28, "Brush Area"), (29, "Call Subroutine"), (30, "Call Program"),
  (31, "Dummy Point CP"), (32, "Step & Repeat Y"), (33, "Dispense ON/OFF"),
  (35, "Home Point"), (36, "Loop Address"), (37, "Circle"),
  (38, "Retract Setup"), (39, "Initialize"), (40, "Label"),
  (43, "Acceleration"), (51, "Blend Point"), (53, "Circle Dispense Setup"),
  (54, "Dispense Outport"), (55, "Dummy Point PTP"), (57, "Cubical Layer"),
  (66, "Height Sensor Point"), (67, "Pause Point"), (68, "Output Toggle"),
  (69, "Wait Input"), (70, "Check Block"), (71, "Acc Time"),
  (72, "Dummy Start"), (73, "Dummy Passing"), (74, "Dummy Arc"),
  (75, "Dummy End"), (76, "Fixed Point"), (127, "Padding")]

/-- `CMD_ID_TO_NAME.get(cmd_id, f"UNKNOWN_.")`. -/
def cmdName (cmd : Nat) : Txt :=
  match cmdTab.lookup cmd with
  | some s => chars s
  | none => chars "UNKNOWN_" ++ natStr cmd

/-- A SysMem field's primitive type. -/
inductive DT where
  | i8 | i16 | i32 | f32
  | strN (n : Nat)
  | bit (i : Nat)
deriving DecidableEq

/-- `sysmem_field_map`, in dict insertion order: name, offset, dtype, and
whether the entry carries a transform function (`len(info) > 2`). -/
def fieldTab : List (String × Nat × DT × Bool) := [
  ("ProgramSize", 207, .i32, true),
  ("XYMoveSpeed", 12, .f32, false),
  ("ZMoveSpeed", 44, .f32, false),
  ("DebugSpeed", 105, .f32, false),
  ("TipHomeX", 85, .f32, false),
  ("TipHomeY", 89, .f32, false),
  ("TipHomeZ", 93, .f32, false),
  ("TipAdjustX", 109, .f32, false),
  ("TipAdjustY", 113, .f32, false),
  ("TipAdjustZ", 117, .f32, false),
  ("SoftOrgX", 267, .f32, false),
  ("SoftOrgY", 271, .f32, false),
  ("SoftOrgZ", 275, .f32, false),
  ("AutoPurgeWaitTime", 178, .f32, false),
  ("AutoPurgeDispenseTime", 182, .f32, false),
  ("ZLimit", 79, .f32, false),
  ("PreDispenseWait", 263, .f32, false),
  ("RunCounter", 70, .i16, false),
  ("QuickStep", 177, .i8, true),
  ("RunningHomeFirst", 397, .i8, true),
  ("EmergencyMode", 190, .i8, true),
  ("ProgramLabel", 52, .strN 15, false),
  ("MagicSignature_398", 398, .i16, false),
  ("O1", 83, .bit 0, false),
  ("O2", 83, .bit 1, false),
  ("O3", 83, .bit 2, false),
  ("O4", 83, .bit 3, false),
  ("O5", 83, .bit 4, false),
  ("O6", 83, .bit 5, false),
  ("O7", 83, .bit 6, false),
  ("O8", 83, .bit 7, false)]

/-- `field in sysmem_field_map` / `sysmem_field_map[field]` by name. -/
def tabGet (fld : Txt) : Option (Nat × DT × Bool) :=
  (fieldTab.find? (fun e => chars e.1 == fld)).map (fun e => e.2)

/-- The abstracted Python-float operations (see the file header). -/
structure PyOps where
  fmtRec : Nat → Txt
  fmtSys : Nat → Txt
  packF32 : PyF → Option (Nat × Nat × Nat × Nat)

/-! ### Decoding (`decode_command_records`, `decode_sysmem_pretty`) -/

/-- One decoded record parameter: a Python `int`, a Python `float` read by
`unpack("<f")` (kept as its 32-bit pattern), or an exactly scaled 16-bit
value `num / den` (`ri(o) / 100.0` and `ri(o) / 1000.0`). -/
inductive PTok where
  | pint (i : Int)
  | pflt (bits : Nat)
  | pscl (num : Int) (den : Nat)

/-- The decoder's parameter list for one record, by command kind
(`decode_command_records`'s dispatch). -/
def recParams (rec : List Nat) (cmd : Nat) : List PTok :=
  if cmd = 54 then [.pint (readI16 rec 12)]
  else if cmd = 1 then [.pflt (readU32 rec 0), .pint (byteAt rec 14)]
  else if cmd = 9 ∨ cmd = 71 then [.pflt (readU32 rec 0)]
  else if cmd = 27 ∨ cmd = 30 ∨ cmd = 40 then [.pint (readI16 rec 12)]
  else if cmd = 33 ∨ cmd = 76 then [.pint (byteAt rec 14)]
  else if cmd = 22 then [.pflt (readU32 rec 0), .pint (byteAt rec 14)]
  else if cmd = 6 ∨ cmd = 53 then [.pflt (readU32 rec 0), .pflt (readU32 rec 4)]
  else if cmd = 68 then [.pflt (readU32 rec 0), .pflt (readU32 rec 4), .pflt (readU32 rec 8)]
  else if cmd = 36 then [.pint (readI16 rec 12), .pflt (readU32 rec 0)]
  else if cmd = 28 then
    [.pflt (readU32 rec 0), .pflt (readU32 rec 4), .pint ((byteAt rec 14 : Int) + 1),
     .pint (readI16 rec 12)]
  else if cmd = 70 then [.pint (readI16 rec 8), .pint (readI16 rec 10)]
  else if cmd = 7 ∨ cmd = 43 then
    [.pint (readI16 rec 8), .pint (readI16 rec 10), .pint (readI16 rec 12)]
  else if cmd = 69 then [.pint (readI16 rec 8), .pint (readI16 rec 10)]
  else if cmd = 23 then [.pflt (readU32 rec 0), .pflt (readU32 rec 4), .pflt (readU32 rec 8)]
  else if cmd = 2 ∨ cmd = 3 ∨ cmd = 4 ∨ cmd = 5 ∨ cmd = 12 ∨ cmd = 18 ∨ cmd = 31 ∨
      cmd = 55 ∨ cmd = 67 ∨ cmd = 72 ∨ cmd = 73 ∨ cmd = 74 ∨ cmd = 75 then
    [.pflt (readU32 rec 0), .pflt (readU32 rec 4), .pflt (readU32 rec 8)]
  else if cmd = 66 then
    [.pflt (readU32 rec 0), .pflt (readU32 rec 4), .pflt (readU32 rec 8),
     .pscl (readI16 rec 12) 100]
  else if cmd = 21 then
    [.pflt (readU32 rec 0), .pscl (readI16 rec 10) 1000, .pflt (readU32 rec 4),
     .pscl (readI16 rec 12) 1000, .pscl (readI16 rec 8) 1000]
  else if cmd = 37 then
    [.pflt (readU32 rec 0), .pflt (readU32 rec 4), .pflt (readU32 rec 8),
     .pscl (readI16 rec 12) 100]
  else if cmd = 29 ∨ cmd = 38 then
    [.pflt (readU32 rec 0), .pflt (readU32 rec 4), .pflt (readU32 rec 8),
     .pint (readI16 rec 12)]
  else if cmd = 13 ∨ cmd = 32 then
    [.pscl (readI16 rec 0) 100, .pscl (readI16 rec 2) 100, .pint (readI16 rec 10),
     .pint (readI16 rec 12), .pint (byteAt rec 14), .pint (readI16 rec 8)]
  else []

/-- Digits of `n` zero-padded on the left to `k` digits. -/
def padDigs (k n : Nat) : Txt :=
  let d := natStr n
  List.replicate (k - d.length) 48 ++ d

/-- Fractional digits with trailing zeros removed. -/
def trimZeros (t : Txt) : Txt := (t.reverse.dropWhile (fun c => c = 48)).reverse

/-- Number of decimal digits of the scale divisor (2 for 100, 3 for 1000). -/
def scaleDigs (den : Nat) : Nat := if den = 1000 then 3 else 2

/-- Display of an exactly scaled parameter `num / den` (`den` is 100 or
1000, `|num| ≤ 32768`).  The Python code computes `p = ri(o) / den` as a
binary64, prints `str(int(round(p)))` when `abs(p - round(p)) < 1e-6` and
`f"{p:.6g}"` otherwise.  At these scales the exact value has at most 5
significant digits, so the 6-significant-digit output is the exact decimal
with trailing zeros stripped, and the near-integer test is equivalent to
`den ∣ num`; both renderings are reproduced here exactly. -/
def sclDisp (num : Int) (den : Nat) : Txt :=
  if num.emod den = 0 then intStr (num.ediv den)
  else
    let a := num.natAbs
    let ip := a / den
    let frac := trimZeros (padDigs (scaleDigs den) (a % den))
    (if num < 0 then [45] else []) ++ natStr ip ++ [46] ++ frac

/-- Display of one parameter; `none` models the decoder crash
(`round(p)` raises on an inf/nan float parameter). -/
def ptokDisp (P : PyOps) : PTok → Option Txt
  | .pint i => some (intStr i)
  | .pscl n d => some (sclDisp n d)
  | .pflt bits => if f32exp bits = 255 then none else some (P.fmtRec bits)

/-- The `# raw:` marker. -/
def rawMark : Txt := chars "# raw:"

/-- Pad `left` to the raw column and append the raw-hex annotation
(`max(1, RAW_COLUMN - len(left_part) - 1)` spaces). -/
def withRaw (left raw : Txt) : Txt :=
  left ++ spaces (max 1 (60 - left.length - 1)) ++ chars "# raw: " ++ raw

/-- Decode one 16-byte record to its text line (`decode_command_records`
loop body); `none` models the inf/nan display crash. -/
def recLine (P : PyOps) (rec : List Nat) : Option Txt :=
  if rec.take 15 = List.replicate 15 0 ∧ byteAt rec 15 = 255 then
    some (withRaw (chars "FF Padding") (hexConcat rec))
  else
    let b15 := byteAt rec 15
    let cmd := b15 % 128
    match (recParams rec cmd).mapM (ptokDisp P) with
    | none => none
    | some toks =>
      let left :=
        if toks.isEmpty then hex2 b15 ++ [32] ++ cmdName cmd
        else hex2 b15 ++ [32] ++ cmdName cmd ++ [32] ++ joinSp toks
      some (withRaw left (hexConcat rec))

/-- `str(b)` for a Python bool. -/
def boolStr (b : Bool) : Txt := if b then chars "True" else chars "False"

/-- ASCII value of a `str[N]` field: bytes before the first NUL, non-ASCII
bytes dropped (`decode("ascii", errors="ignore")`). -/
def labelTxt (bs : List Nat) : Txt := (bs.takeWhile (fun b => b ≠ 0)).filter (fun b => b < 128)

/-- Displayed value of one non-bit SysMem field (`decode_sysmem_pretty`'s
read + reverse-transform step). -/
def fieldDisp (P : PyOps) (sm : List Nat) (name : String) (off : Nat) (dt : DT)
    (hasT : Bool) : Txt :=
  match dt with
  | .i8 =>
      let v := readI8 sm off
      if hasT then
        if name = "QuickStep" then boolStr (v ≠ 0)
        else if name = "RunningHomeFirst" then boolStr (v = 0)
        else if name = "EmergencyMode" then
          (if v ≠ 0 then chars "Maintaining" else chars "Initial")
        else intStr v
      else intStr v
  | .i16 => intStr (readI16 sm off)
  | .i32 =>
      let v := readI32 sm off
      if hasT ∧ name = "ProgramSize" then intStr (v - 1) else intStr v
  | .f32 => P.fmtSys (readU32 sm off)
  | .strN n => labelTxt (sliceLen sm off n)
  | .bit _ => []

/-- Number of bytes covered by a field's raw capture. -/
def rawLen : DT → Nat
  | .i8 => 1
  | .i16 => 2
  | .i32 => 4
  | .f32 => 4
  | .strN n => n
  | .bit _ => 0

/-- Raw hex capture of one non-bit SysMem field. -/
def fieldRaw (sm : List Nat) (off : Nat) (dt : DT) : Txt :=
  hexConcat (sliceLen sm off (rawLen dt))

/-- Whether a dtype is a packed bit. -/
def dtBit : DT → Bool
  | .bit _ => true
  | _ => false

/-- One SysMem field line (`"Field: value"` padded, plus raw capture);
`none` for bit fields, which the loop skips. -/
def fieldLine (P : PyOps) (sm : List Nat) (e : String × Nat × DT × Bool) : Option Txt :=
  if dtBit e.2.2.1 then none
  else
    some (withRaw (chars e.1 ++ chars ": " ++ fieldDisp P sm e.1 e.2.1 e.2.2.1 e.2.2.2)
      (fieldRaw sm e.2.1 e.2.2.1))

/-- The eight `O1`..`O8` lines, fanned out of the 16-bit word at offset 83. -/
def oLines (sm : List Nat) : List Txt :=
  let w := readU16 sm 83
  (List.range 8).map (fun i =>
    withRaw (chars "O" ++ natStr (i + 1) ++ chars ": " ++ boolStr (w / 2 ^ i % 2 = 1))
      (hex4 w))

/-- The 20 rows of the trailing `unmapped raw` dump. -/
def dumpRows (sm : List Nat) : List Txt :=
  (List.range 20).map (fun i => hexRow (sliceLen sm (20 * i) 20))

/-- Section header lines. -/
def hdrDecoded : Txt := chars "===== SysMem (decoded fields) ====="

/-- The unmapped-raw section header. -/
def hdrUnmapped : Txt := chars "===== SysMem (unmapped raw) ====="

/-- All SysMem lines (`decode_sysmem_pretty`). -/
def sysmemLines (P : PyOps) (sm : List Nat) : List Txt :=
  hdrDecoded :: (fieldTab.filterMap (fieldLine P sm) ++ oLines sm ++
    hdrUnmapped :: dumpRows sm)

/-- The record region (`data[:-400]`). -/
def bodyOf (data : List Nat) : List Nat := data.take (data.length - 400)

/-- The metadata block (`data[-400:]`). -/
def smOf (data : List Nat) : List Nat := data.drop (data.length - 400)

/-- `n_recs = len(body) // 16`. -/
def nRecs (data : List Nat) : Nat := (bodyOf data).length / 16

/-- The 16-byte record slices. -/
def recsOf (data : List Nat) : List (List Nat) :=
  (List.range (nRecs data)).map (fun i => sliceLen (bodyOf data) (16 * i) 16)

/-- The leading `# <N> records` comment line. -/
def countLine (n : Nat) : Txt := chars "# " ++ natStr n ++ chars " records"

/-- Decode failure: the size check, or the inf/nan display crash. -/
inductive DecErr where
  | truncated
  | crash
deriving DecidableEq

/-- `decode_file` (up to file I/O): the produced text lines. -/
def decodeLines (P : PyOps) (data : List Nat) : Except DecErr (List Txt) :=
  if data.length < 500 then .error .truncated
  else
    match (recsOf data).mapM (recLine P) with
    | none => .error .crash
    | some rls => .ok (countLine (nRecs data) :: rls ++ sysmemLines P (smOf data))

/-- The text document written by `decode_file` (`"\n".join(lines)`). -/
def decodeStr (P : PyOps) (data : List Nat) : Except DecErr Txt :=
  (decodeLines P data).map joinNL


/-! ### Encoding (`_pack_record_from_text` and friends) -/

/-- Failure modes of `_pack_record_from_text`.  The first five are the
explicit `raise ValueError` sites (the spec's `FormatError` class); `short`
is the uncaught `IndexError` from `val_list[vi]` when parameters are
missing; `range` is the uncaught `struct.error` / bytearray range /
numeric-conversion error for out-of-range or non-finite values. -/
inductive PackErr where
  | tooFew
  | hexLen
  | hexParse
  | floatTok
  | intTok
  | short
  | range
deriving DecidableEq

/-- The spec's `FormatError` class: the explicitly raised parse errors. -/
def isFormatErr : PackErr → Bool
  | .tooFew | .hexLen | .hexParse | .floatTok | .intTok => true
  | _ => false

/-- An element of `val_list`: a Python `int` or `float`. -/
inductive ValNum where
  | int (i : Int)
  | flt (f : PyF)
deriving DecidableEq

/-- Name/parameter token split: the first token that parses as a float
starts the parameter list, everything after it is a parameter. -/
def classTok : List Txt → List Txt × List Txt
  | [] => ([], [])
  | tok :: r =>
      if pyFloatOk tok then ([], tok :: r)
      else
        let p := classTok r
        (tok :: p.1, p.2)

/-- Convert one parameter token (`float(p)` when it contains `.`/`e`/`E`,
else `int(p)`). -/
def convTok (tok : Txt) : Except PackErr ValNum :=
  if tok.contains 46 || tok.contains 101 || tok.contains 69 then
    match pyFloat tok with
    | some f => .ok (.flt f)
    | none => .error .floatTok
  else
    match pyInt tok with
    | some i => .ok (.int i)
    | none => .error .intTok

/-- `val_list[vi]` with the `IndexError` escape. -/
def nextVal : List ValNum → Except PackErr (ValNum × List ValNum)
  | [] => .error .short
  | v :: r => .ok (v, r)

/-- `int(v)` on a `val_list` element (truncation; crashes on nan/inf). -/
def vInt : ValNum → Except PackErr Int
  | .int i => .ok i
  | .flt f =>
      match pyfToInt f with
      | some i => .ok i
      | none => .error .range

/-- `float(v)` on a `val_list` element. -/
def vFlt : ValNum → PyF
  | .int i => .fin ⟨i, 0⟩
  | .flt f => f

/-- `int(round(v * k))` (crashes on nan/inf). -/
def vRound (v : ValNum) (k : Nat) : Except PackErr Int :=
  match v with
  | .int i => .ok (i * k)
  | .flt (.fin q) => .ok (pyRound (decqMul q k))
  | .flt _ => .error .range

/-- `struct.pack_into("<h", bcar, off, v)`. -/
def putI16 (b : List Nat) (off : Nat) (v : Int) : Except PackErr (List Nat) :=
  match packI16 v with
  | some bs => .ok (writeAt b off bs)
  | none => .error .range

/-- `struct.pack_into("<f", bcar, off, v)` via the abstracted conversion. -/
def putF32 (P : PyOps) (b : List Nat) (off : Nat) (v : ValNum) :
    Except PackErr (List Nat) :=
  match P.packF32 (vFlt v) with
  | some bs => .ok (writeAt b off [bs.1, bs.2.1, bs.2.2.1, bs.2.2.2])
  | none => .error .range

/-- `bcar[off] = v`. -/
def putByte (b : List Nat) (off : Nat) (v : Int) : Except PackErr (List Nat) :=
  match assignByte v with
  | some u => .ok (writeAt b off [u])
  | none => .error .range

/-- The per-kind packing dispatch of `_pack_record_from_text` (after the
value list has been built); `bcar` already carries byte 15. -/
def packBody (P : PyOps) (bcar : List Nat) (cmd : Nat) (vs : List ValNum) :
    Except PackErr (List Nat) :=
  if cmd = 54 then do
    let (v, _) ← nextVal vs
    putI16 bcar 12 (← vInt v)
  else if cmd = 1 then do
    let (v0, vs) ← nextVal vs
    let b ← putF32 P bcar 0 v0
    let (v1, _) ← nextVal vs
    putByte b 14 (← vInt v1)
  else if cmd = 9 ∨ cmd = 71 then do
    let (v0, _) ← nextVal vs
    putF32 P bcar 0 v0
  else if cmd = 27 ∨ cmd = 30 ∨ cmd = 40 then do
    let (v, _) ← nextVal vs
    putI16 bcar 12 (← vInt v)
  else if cmd = 33 ∨ cmd = 76 then do
    let (v, _) ← nextVal vs
    putByte bcar 14 (← vInt v)
  else if cmd = 22 then do
    let (v0, vs) ← nextVal vs
    let b ← putF32 P bcar 0 v0
    let (v1, _) ← nextVal vs
    putByte b 14 (← vInt v1)
  else if cmd = 6 ∨ cmd = 53 then do
    let (v0, vs) ← nextVal vs
    let b ← putF32 P bcar 0 v0
    let (v1, _) ← nextVal vs
    putF32 P b 4 v1
  else if cmd = 68 then do
    let (v0, vs) ← nextVal vs
    let b ← putF32 P bcar 0 v0
    let (v1, vs) ← nextVal vs
    let b ← putF32 P b 4 v1
    let (v2, _) ← nextVal vs
    putF32 P b 8 v2
  else if cmd = 36 then do
    let (v0, vs) ← nextVal vs
    let b ← putI16 bcar 12 (← vInt v0)
    let (v1, _) ← nextVal vs
    putF32 P b 0 v1
  else if cmd = 28 then do
    let (v0, vs) ← nextVal vs
    let b ← putF32 P bcar 0 v0
    let (v1, vs) ← nextVal vs
    let b ← putF32 P b 4 v1
    let (v2, vs) ← nextVal vs
    let b ← putByte b 14 ((← vInt v2) - 1)
    let (v3, _) ← nextVal vs
    putI16 b 12 (← vInt v3)
  else if cmd = 70 then do
    let (v0, vs) ← nextVal vs
    let b ← putI16 bcar 8 (← vInt v0)
    let (v1, _) ← nextVal vs
    putI16 b 10 (← vInt v1)
  else if cmd = 7 ∨ cmd = 43 then do
    let (v0, vs) ← nextVal vs
    let b ← putI16 bcar 8 (← vInt v0)
    let (v1, vs) ← nextVal vs
    let b ← putI16 b 10 (← vInt v1)
    let (v2, _) ← nextVal vs
    putI16 b 12 (← vInt v2)
  else if cmd = 69 then do
    let (v0, vs) ← nextVal vs
    let b ← putI16 bcar 8 (← vInt v0)
    let (v1, _) ← nextVal vs
    putI16 b 10 (← vInt v1)
  else if cmd = 23 then do
    let (v0, vs) ← nextVal vs
    let b ← putF32 P bcar 0 v0
    let (v1, vs) ← nextVal vs
    let b ← putF32 P b 4 v1
    let (v2, _) ← nextVal vs
    putF32 P b 8 v2
  else if cmd = 2 ∨ cmd = 3 ∨ cmd = 4 ∨ cmd = 5 ∨ cmd = 12 ∨ cmd = 18 ∨ cmd = 31 ∨
      cmd = 55 ∨ cmd = 67 ∨ cmd = 72 ∨ cmd = 73 ∨ cmd = 74 ∨ cmd = 75 then do
    let (v0, vs) ← nextVal vs
    let b ← putF32 P bcar 0 v0
    let (v1, vs) ← nextVal vs
    let b ← putF32 P b 4 v1
    let (v2, _) ← nextVal vs
    putF32 P b 8 v2
  else if cmd = 66 then do
    let (v0, vs) ← nextVal vs
    let b ← putF32 P bcar 0 v0
    let (v1, vs) ← nextVal vs
    let b ← putF32 P b 4 v1
    let (v2, vs) ← nextVal vs
    let b ← putF32 P b 8 v2
    let (v3, _) ← nextVal vs
    putI16 b 12 (← vRound v3 100)
  else if cmd = 21 then do
    let (v0, vs) ← nextVal vs
    let b ← putF32 P bcar 0 v0
    let (v1, vs) ← nextVal vs
    let b ← putI16 b 10 (← vRound v1 1000)
    let (v2, vs) ← nextVal vs
    let b ← putF32 P b 4 v2
    let (v3, vs) ← nextVal vs
    let b ← putI16 b 12 (← vRound v3 1000)
    let (v4, _) ← nextVal vs
    putI16 b 8 (← vRound v4 1000)
  else if cmd = 37 then do
    let (v0, vs) ← nextVal vs
    let b ← putF32 P bcar 0 v0
    let (v1, vs) ← nextVal vs
    let b ← putF32 P b 4 v1
    let (v2, vs) ← nextVal vs
    let b ← putF32 P b 8 v2
    let (v3, _) ← nextVal vs
    putI16 b 12 (← vRound v3 100)
  else if cmd = 29 ∨ cmd = 38 then do
    let (v0, vs) ← nextVal vs
    let b ← putF32 P bcar 0 v0
    let (v1, vs) ← nextVal vs
    let b ← putF32 P b 4 v1
    let (v2, vs) ← nextVal vs
    let b ← putF32 P b 8 v2
    let (v3, _) ← nextVal vs
    putI16 b 12 (← vInt v3)
  else if cmd = 13 ∨ cmd = 32 then do
    let (v0, vs) ← nextVal vs
    let b ← putI16 bcar 0 (← vRound v0 100)
    let (v1, vs) ← nextVal vs
    let b ← putI16 b 2 (← vRound v1 100)
    let (v2, vs) ← nextVal vs
    let b ← putI16 b 10 (← vInt v2)
    let (v3, vs) ← nextVal vs
    let b ← putI16 b 12 (← vInt v3)
    let (v4, vs) ← nextVal vs
    let b ← putByte b 14 (← vInt v4)
    let (v5, _) ← nextVal vs
    putI16 b 8 (← vInt v5)
  else .ok bcar

deriving instance DecidableEq for Except

/-- The fixed padding record. -/
def padRec : List Nat := List.replicate 15 0 ++ [255]

/-- `_pack_record_from_text`. -/
def packRec (P : PyOps) (t : Txt) : Except PackErr (List Nat) :=
  match splitWS t with
  | [] => .error .tooFew
  | [_] => .error .tooFew
  | t0 :: _ :: _ =>
    if t0.length ≠ 2 then .error .hexLen
    else
      match pyHexInt t0 with
      | none => .error .hexParse
      | some b15 =>
        if b15 = 255 then .ok padRec
        else
          match assignByte b15 with
          | none => .error .range
          | some b =>
            let bcar := writeAt (List.replicate 16 0) 15 [b]
            let ptoks := (classTok (splitWS t).tail).2
            match ptoks.mapM convTok with
            | .error e => .error e
            | .ok vs => packBody P bcar (b % 128) vs


/-- Fatal errors of `encode_file` (`ValueError`s, all uncaught). -/
inductive EErr where
  | rawCap
  | pack (e : PackErr)
  | marker
  | rawShort
  | rawByte
  | rawTok
  | field
deriving DecidableEq

/-- `encode_records_from_text`: the packed record bytes and the index of
the line the loop stopped at. -/
def encRecs (P : PyOps) : List Txt → Except EErr (List Nat × Nat)
  | [] => .ok ([], 0)
  | ln :: rest =>
      let s := stripPy ln
      if s.isEmpty then (encRecs P rest).map (fun p => (p.1, p.2 + 1))
      else if s.headD 0 = 35 then (encRecs P rest).map (fun p => (p.1, p.2 + 1))
      else if (chars "===== SysMem (decoded fields)").isPrefixOf s then .ok ([], 0)
      else if hasSub rawMark ln then
        match splitOnce rawMark ln with
        | none => .error .rawCap
        | some pr =>
            let rawHex := dropSpaces (stripPy pr.2)
            if rawHex.length ≠ 32 then .error .rawCap
            else
              match hexDec rawHex with
              | none => .error .rawCap
              | some rec => (encRecs P rest).map (fun p => (rec ++ p.1, p.2 + 1))
      else
        match packRec P ln with
        | .error e => .error (.pack e)
        | .ok rec => (encRecs P rest).map (fun p => (rec ++ p.1, p.2 + 1))

/-- `value.lower() in ("1", "true", "yes")`. -/
def bitVal (value : Txt) : Bool :=
  lowerPy value == chars "1" || lowerPy value == chars "true" || lowerPy value == chars "yes"

/-- The int8-branch `transform(value)`: the transform lambda applied to the
*string* value (`sysmem[offset] = transform(value) & 0xFF`); `none` models
the `TypeError` (caught and re-raised as `ValueError`) that an identity
transform on a string would produce. -/
def i8Tr (fld value : Txt) : Option Int :=
  if fld = chars "QuickStep" then some (if value.isEmpty then 0 else 1)
  else if fld = chars "RunningHomeFirst" then some (if value.isEmpty then 1 else 0)
  else if fld = chars "EmergencyMode" then
    some (if value = chars "Maintaining" then 1 else 0)
  else none

/-- The int-branch transform (`transform(int(value))`). -/
def iTr (fld : Txt) (i : Int) : Int := if fld = chars "ProgramSize" then i + 1 else i

/-- `encode_sysmem_from_fields` loop: walks the lines after the start
index, filling a zeroed 400-byte buffer and collecting the bit word. -/
def encSysLoop (P : PyOps) : List Txt → List Nat → Option Nat →
    Except EErr (List Nat × Option Nat)
  | [], buf, bits => .ok (buf, bits)
  | ln :: rest, buf, bits =>
      let l := stripPy ln
      if l.isEmpty then .ok (buf, bits)
      else if (chars "=====").isPrefixOf l then .ok (buf, bits)
      else if ¬ hasSub [58] l then encSysLoop P rest buf bits
      else
        match splitOnce [58] l with
        | none => encSysLoop P rest buf bits
        | some fv =>
          let fld := stripPy fv.1
          let value := stripPy fv.2
          if hasSub rawMark l then encSysLoop P rest buf bits
          else
            match tabGet fld with
            | none => encSysLoop P rest buf bits
            | some (off, dt, _) =>
              match dt with
              | .bit i =>
                  let acc := bits.getD 0
                  encSysLoop P rest buf (some (if bitVal value then acc ||| 2 ^ i else acc))
              | .i8 =>
                  match i8Tr fld value with
                  | none => .error .field
                  | some v => encSysLoop P rest (writeAt buf off [(v.emod 256).toNat]) bits
              | .i16 =>
                  match pyInt value with
                  | none => .error .field
                  | some i =>
                    match packI16 (iTr fld i) with
                    | none => .error .field
                    | some bs => encSysLoop P rest (writeAt buf off bs) bits
              | .i32 =>
                  match pyInt value with
                  | none => .error .field
                  | some i =>
                    match packI32 (iTr fld i) with
                    | none => .error .field
                    | some bs => encSysLoop P rest (writeAt buf off bs) bits
              | .f32 =>
                  match pyFloat value with
                  | none => .error .field
                  | some f =>
                    match P.packF32 f with
                    | none => .error .field
                    | some q =>
                        encSysLoop P rest (writeAt buf off [q.1, q.2.1, q.2.2.1, q.2.2.2]) bits
              | .strN n =>
                  let enc := (value.filter (fun c => c < 128)).take n
                  encSysLoop P rest (writeAt buf off (enc ++ List.replicate (n - enc.length) 0)) bits

/-- `encode_sysmem_from_fields` (on the lines after `start_idx`): the
mapped buffer, with the collected bit word packed at its offset. -/
def encSys (P : PyOps) (ls : List Txt) : Except EErr (List Nat) :=
  match encSysLoop P ls (List.replicate 400 0) none with
  | .error e => .error e
  | .ok (buf, none) => .ok buf
  | .ok (buf, some m) => .ok (writeAt buf 83 [m % 256, m / 256 % 256])

/-- `encode_file`'s scan for fields whose line lost its `# raw:` capture
(on the lines from the stop index on). -/
def toReenc : List Txt → List Txt
  | [] => []
  | ln :: rest =>
      let l := stripPy ln
      if hdrUnmapped.isPrefixOf l then []
      else if hasSub [58] l ∧ ¬ hasSub rawMark l then
        match splitOnce [58] l with
        | none => toReenc rest
        | some fv =>
            let fld := stripPy fv.1
            if (tabGet fld).isSome then fld :: toReenc rest else toReenc rest
      else toReenc rest

/-- Token sweep of `parse_unmapped_raw` (`int(h, 16)` per token, capped at
400 values). -/
def addToks : List Txt → List Int → Except EErr (List Int)
  | [], acc => .ok acc
  | h :: r, acc =>
      if acc.length < 400 then
        match pyHexInt h with
        | none => .error .rawTok
        | some v => addToks r (acc ++ [v])
      else addToks r acc

/-- Line sweep of `parse_unmapped_raw`. -/
def rowsLoop : List Txt → List Int → Except EErr (List Int)
  | [], acc => if acc.length < 400 then .error .rawShort else .ok (acc.take 400)
  | ln :: rest, acc =>
      let l := stripPy ln
      if l.isEmpty then rowsLoop rest acc
      else if (chars "=====").isPrefixOf l then
        (if acc.length < 400 then .error .rawShort else .ok (acc.take 400))
      else
        match addToks (splitWS l) acc with
        | .error e => .error e
        | .ok acc2 => if 400 ≤ acc2.length then .ok (acc2.take 400) else rowsLoop rest acc2

/-- `bytes(hex_bytes)`: each value must be a byte. -/
def bytesOf : List Int → Except EErr (List Nat)
  | [] => .ok []
  | v :: r =>
      if 0 ≤ v ∧ v ≤ 255 then (bytesOf r).map (fun bs => v.toNat :: bs)
      else .error .rawByte

/-- `parse_unmapped_raw` (on the lines after the unmapped header). -/
def parseUnmapped (ls : List Txt) : Except EErr (List Nat) :=
  match rowsLoop ls [] with
  | .error e => .error e
  | .ok vs => bytesOf vs

/-- Overlay width per dtype (`encode_file`'s overlay dispatch). -/
def ovLen : DT → Nat
  | .bit _ => 2
  | .i8 => 1
  | .i16 => 2
  | .i32 => 4
  | .f32 => 4
  | .strN n => n

/-- Overlay one re-encoded field's byte range onto the base buffer. -/
def ovl (mapped base : List Nat) (fld : Txt) : List Nat :=
  match tabGet fld with
  | none => base
  | some (off, dt, _) => writeAt base off (sliceLen mapped off (ovLen dt))

/-- `encode_file` (up to file I/O): text lines to output bytes. -/
def encFileLines (P : PyOps) (all : List Txt) : Except EErr (List Nat) :=
  match encRecs P all with
  | .error e => .error e
  | .ok (recs, idx) =>
    let flds := toReenc (all.drop idx)
    match encSys P (all.drop (idx + 1)) with
    | .error e => .error e
    | .ok mapped =>
      match all.findIdx? (fun l => l == hdrUnmapped) with
      | none => .error .marker
      | some uidx =>
        match parseUnmapped (all.drop (uidx + 1)) with
        | .error e => .error e
        | .ok base => .ok (recs ++ flds.foldl (ovl mapped) base)

/-- `encode_file` reading the text document as written (`splitlines` of the
file contents). -/
def encFileStr (P : PyOps) (s : Txt) : Except EErr (List Nat) :=
  encFileLines P (splitlinesPy s)

/-- A concrete instantiation of the abstracted float operations, used by
the closed counterexample evaluations (any value respecting the display
constraints works; the inputs below never reach `packF32`). -/
def fmt0 : PyOps := ⟨fun _ => chars "0.0", fun _ => chars "0.0", fun _ => none⟩

/-- Byte list viewed as Python ints (`parse_unmapped_raw` accumulator). -/
def intsOf (bs : List Nat) : List Int := bs.map Int.ofNat

/-! ### Line-shape predicates used by the verification -/

/-- The structured left part of a decoded record line: nonempty, starts
with a non-space character that is neither `#` nor `=`, and contains no
`#` anywhere. -/
def goodLeft (left : Txt) : Prop :=
  left ≠ [] ∧ isPySpace (left.headD 0) = false ∧ left.headD 0 ≠ 35 ∧
    left.headD 0 ≠ 61 ∧ 35 ∉ left

/-- A line the re-encode scans walk over without effect: strip-stable,
nonempty, not header-like, and carrying a `# raw:` capture. -/
def skipLine (l : Txt) : Prop :=
  stripPy l = l ∧ l ≠ [] ∧ l.headD 0 ≠ 61 ∧ hasSub rawMark l = true

/-! ### Concrete instances evaluated by the closed theorems -/

/-- A valid-size input whose `ProgramLabel` string field (offset 52 of the
SysMem block) contains the byte 0x0A. -/
def dataCE1 : List Nat := List.replicate 112 0 ++ (List.replicate 52 0 ++ [10] ++ List.replicate 347 0)

/-- The decoded document of `dataCE1`. -/
def docCE1 : List Txt := match decodeLines fmt0 dataCE1 with | .ok d => d | .error _ => []

/-- An all-zero input of valid size and its decoded document. -/
def data0 : List Nat := List.replicate 512 0

def doc0 : List Txt := match decodeLines fmt0 data0 with | .ok d => d | .error _ => []

/-- Record lines of the all-zero input. -/
def rls0 : List Txt := match (recsOf data0).mapM (recLine fmt0) with
  | some r => r
  | none => []

/-- Decoded field and O lines of the all-zero input. -/
def midl0 : List Txt :=
  fieldTab.filterMap (fieldLine fmt0 (smOf data0)) ++ oLines (smOf data0)

/-- An edited ProgramSize line (value changed, raw capture removed). -/
def nlPS : Txt := chars "ProgramSize: 5"

/-- The mapped buffer produced for the edited document. -/
def mapped0 : List Nat :=
  match encSys fmt0 (([] ++ nlPS :: midl0.tail) ++ hdrUnmapped :: dumpRows (smOf data0)) with
  | .ok m => m
  | .error _ => []

/-- A valid-size input whose SysMem flag word at offset 83 is 0x0009
(bits 0 and 3 set). -/
def dataO : List Nat := List.replicate 112 0 ++ (List.replicate 83 0 ++ [9] ++ List.replicate 316 0)

/-- Its decoded document. -/
def docO : List Txt := match decodeLines fmt0 dataO with | .ok d => d | .error _ => []

/-- The document with the `O2` line edited to `true` (raw capture gone). -/
def docO2 : List Txt := docO.map (fun l => if (chars "O2:").isPrefixOf l then chars "O2: true" else l)

/-- The re-encoded bytes of the edited document. -/
def outO : List Nat := match encFileLines fmt0 docO2 with | .ok d => d | .error _ => []

/-- A 501-byte input: not of the form 16·N + 400. -/
def data501 : List Nat := List.replicate 501 0

/-- Its decoded document. -/
def doc501 : List Txt := match decodeLines fmt0 data501 with | .ok d => d | .error _ => []

/-- A float-op instantiation whose packed form of `0.0` is the true IEEE
encoding `00 00 00 00`. -/
def fmtP : PyOps := ⟨fun _ => chars "0.0", fun _ => chars "0.0", fun _ => some (0, 0, 0, 0)⟩

/-- A kind-66 record storing 250 in the ×100-scaled 16-bit field at
offset 12. -/
def rec66 : List Nat := [0, 0, 0, 0, 0, 0, 0, 0, 0, 0, 0, 0, 250, 0, 0, 66]

/-- A kind-37 record storing 250 in the ×100-scaled 16-bit field at
offset 12. -/
def rec37 : List Nat := [0, 0, 0, 0, 0, 0, 0, 0, 0, 0, 0, 0, 250, 0, 0, 37]

/-! ### Digit and number lemmas -/

/-- Accumulating decimal value of a digit string. -/
def pV (a : Nat) (t : Txt) : Nat := t.foldl (fun a c => 10 * a + (c - 48)) a

theorem pV_append (a : Nat) (xs ys : Txt) : pV a (xs ++ ys) = pV (pV a xs) ys := by
  simp [pV, List.foldl_append]

theorem digsAux_zero (f : Nat) : digsAux f 0 = [] := by cases f <;> rfl

theorem digsAux_digits : ∀ f n, ∀ c ∈ digsAux f n, 48 ≤ c ∧ c ≤ 57 := by
  intro f
  induction f with
  | zero => intro n c h; simp [digsAux] at h
  | succ f ih =>
      intro n c h
      cases n with
      | zero => simp [digsAux] at h
      | succ m =>
          simp only [digsAux, List.mem_append, List.mem_singleton] at h
          rcases h with h | h
          · exact ih _ _ h
          · subst h; omega

theorem digsAux_val : ∀ f n, n < 10 ^ f → pV 0 (digsAux f n) = n ∧ (0 < n → digsAux f n ≠ []) := by
  intro f
  induction f with
  | zero => intro n hn; interval_cases n; simp [digsAux, pV]
  | succ f ih =>
      intro n hn
      cases n with
      | zero => simp [digsAux_zero, pV]
      | succ m =>
          have hq : (m + 1) / 10 < 10 ^ f := by
            rw [Nat.div_lt_iff_lt_mul (by norm_num)]
            calc m + 1 < 10 ^ (f + 1) := hn
            _ = 10 ^ f * 10 := by ring
          have ihq := ih _ hq
          constructor
          · rw [digsAux, pV_append, ihq.1]
            simp only [pV, List.foldl_cons, List.foldl_nil]
            omega
          · intro _
            rw [digsAux]
            simp

theorem natStr_val (n : Nat) : pV 0 (natStr n) = n := by
  rw [natStr]
  by_cases h : n = 0
  · subst h; simp [pV]
  · rw [if_neg h]
    exact (digsAux_val n n (Nat.lt_pow_self (by norm_num) n)).1

theorem natStr_ne_nil (n : Nat) : natStr n ≠ [] := by
  rw [natStr]
  by_cases h : n = 0
  · subst h; simp
  · rw [if_neg h]
    exact (digsAux_val n n (Nat.lt_pow_self (by norm_num) n)).2 (Nat.pos_of_ne_zero h)

theorem natStr_digits : ∀ c ∈ natStr n, 48 ≤ c ∧ c ≤ 57 := by
  intro c h
  rw [natStr] at h
  by_cases hn : n = 0
  · subst hn; simp at h; omega
  · rw [if_neg hn] at h
    exact digsAux_digits _ _ _ h

theorem intStr_chars : ∀ c ∈ intStr i, c = 45 ∨ (48 ≤ c ∧ c ≤ 57) := by
  intro c h
  rw [intStr] at h
  split at h
  · simp only [List.mem_cons] at h
    rcases h with h | h
    · left; exact h
    · right; exact natStr_digits _ h
  · right; exact natStr_digits _ h

theorem decRun_digit_step (c : Nat) (h48 : 48 ≤ c) (h57 : c ≤ 57) (r : Txt) (acc : Nat)
    (b : Bool) : decRun (c :: r) acc b = decRun r (10 * acc + (c - 48)) true := by
  have h95 : c ≠ 95 := by omega
  simp [decRun, h95, decVal, h48, h57]

theorem decRun_digits_append : ∀ (xs : Txt), (∀ c ∈ xs, 48 ≤ c ∧ c ≤ 57) → xs ≠ [] →
    ∀ (ys : Txt) (acc : Nat) (b : Bool), decRun (xs ++ ys) acc b = decRun ys (pV acc xs) true := by
  intro xs
  induction xs with
  | nil => intro _ h; exact absurd rfl h
  | cons c xs ih =>
      intro hd _ ys acc b
      have hc := hd c (by simp)
      rw [List.cons_append, decRun_digit_step c hc.1 hc.2]
      by_cases hxs : xs = []
      · subst hxs; simp [pV]
      · rw [ih (fun x hx => hd x (by simp [hx])) hxs]
        simp [pV]

theorem decRun_natStr (n : Nat) : decRun (natStr n) 0 false = some n := by
  have := decRun_digits_append (natStr n) (@natStr_digits n) (natStr_ne_nil n) [] 0 false
  rw [List.append_nil] at this
  rw [this, decRun]
  simp [natStr_val]

theorem pyInt_natStr (n : Nat) : pyInt (natStr n) = some ((n : Int)) := by
  have hne := natStr_ne_nil n
  have hd := @natStr_digits n
  cases hs : natStr n with
  | nil => exact absurd hs hne
  | cons c rest =>
      have hc := hd c (by rw [hs]; simp)
      have h43 : c ≠ 43 := by omega
      have h45 : c ≠ 45 := by omega
      rw [pyInt, if_neg h43, if_neg h45, ← hs, decRun_natStr]
      rfl

theorem pyInt_intStr (i : Int) : pyInt (intStr i) = some i := by
  rw [intStr]
  split
  · rename_i hneg
    have hv : -(i.natAbs : Int) = i := by omega
    rw [pyInt, if_neg (by norm_num), if_pos rfl, decRun_natStr]
    exact congrArg some hv
  · rename_i hneg
    have hv : (i.toNat : Int) = i := Int.toNat_of_nonneg (by omega)
    have h := pyInt_natStr i.toNat
    rw [hv] at h
    exact h

theorem hexVal_digCh : ∀ d < 16, hexVal (digCh d) = some d := by decide

theorem digCh_range : ∀ d < 16, 48 ≤ digCh d ∧ digCh d ≤ 70 ∧ digCh d ≠ 61 := by decide

theorem hexConcat_chars : ∀ bs, ∀ c ∈ hexConcat bs, 48 ≤ c ∧ c ≤ 70 ∧ c ≠ 61 := by
  intro bs
  induction bs with
  | nil => intro c h; simp [hexConcat] at h
  | cons b bs ih =>
      intro c h
      simp only [hexConcat, List.map_cons, List.flatten_cons, List.mem_append] at h
      rcases h with h | h
      · simp only [hex2, List.mem_cons, List.mem_singleton] at h
        rcases h with h | h | h
        · exact h ▸ digCh_range _ (Nat.mod_lt _ (by norm_num))
        · exact h ▸ digCh_range _ (Nat.mod_lt _ (by norm_num))
        · simp at h
      · exact ih c h

theorem hexConcat_length (bs : List Nat) : (hexConcat bs).length = 2 * bs.length := by
  induction bs with
  | nil => rfl
  | cons b bs ih => simp [hexConcat, hex2] at ih ⊢; omega

theorem hexDec_hex2_cons (b : Nat) (hb : b < 256) (r : Txt) :
    hexDec (hex2 b ++ r) = (hexDec r).map (fun bs => b :: bs) := by
  have h1 : hexVal (digCh (b / 16 % 16)) = some (b / 16 % 16) :=
    hexVal_digCh _ (Nat.mod_lt _ (by norm_num))
  have h2 : hexVal (digCh (b % 16)) = some (b % 16) :=
    hexVal_digCh _ (Nat.mod_lt _ (by norm_num))
  have h3 : 16 * (b / 16 % 16) + b % 16 = b := by omega
  have h0 : hex2 b ++ r = digCh (b / 16 % 16) :: digCh (b % 16) :: r := rfl
  rw [h0]
  simp only [hexDec, h1, h2]
  cases hr : hexDec r with
  | none => rfl
  | some bs =>
      show some ((16 * (b / 16 % 16) + b % 16) :: bs) = some (b :: bs)
      rw [h3]

theorem hexDec_hexConcat : ∀ bs, (∀ b ∈ bs, b < 256) → hexDec (hexConcat bs) = some bs := by
  intro bs
  induction bs with
  | nil => intro _; rfl
  | cons b bs ih =>
      intro hb
      have : hexConcat (b :: bs) = hex2 b ++ hexConcat bs := by simp [hexConcat]
      rw [this, hexDec_hex2_cons b (hb b (by simp)), ih (fun x hx => hb x (by simp [hx]))]
      rfl

theorem pyHexInt_hex2 : ∀ b < 256, pyHexInt (hex2 b) = some (Int.ofNat b) := by decide

/-! ### Text-structure lemmas -/

theorem dropWhile_eq_self_of_head (p : Nat → Bool) (c : Nat) (t : Txt) (h : p c = false) :
    List.dropWhile p (c :: t) = c :: t := by
  simp [List.dropWhile_cons, h]

theorem dropWhile_all_false (p : Nat → Bool) : ∀ t : Txt, (∀ c ∈ t, p c = false) →
    List.dropWhile p t = t := by
  intro t h
  cases t with
  | nil => rfl
  | cons c r => exact dropWhile_eq_self_of_head p c r (h c (by simp))

theorem head_reverse_getLast (t : Txt) (d : Nat) : t.reverse.headD d = t.getLastD d := by
  rw [List.headD_eq_head?, List.head?_reverse, List.getLastD_eq_getLast?]

theorem stripPy_eq_self (t : Txt) (hne : t ≠ []) (h1 : isPySpace (t.headD 0) = false)
    (h2 : isPySpace (t.getLastD 0) = false) : stripPy t = t := by
  rw [stripPy]
  cases t with
  | nil => exact absurd rfl hne
  | cons c r =>
      simp only [List.headD_cons] at h1
      rw [dropWhile_eq_self_of_head _ _ _ h1]
      have hrev : (c :: r).reverse.headD 0 = (c :: r).getLastD 0 := head_reverse_getLast _ _
      cases hv : (c :: r).reverse with
      | nil => simp at hv
      | cons x xs =>
          rw [hv] at hrev
          simp only [List.headD_cons] at hrev
          rw [dropWhile_eq_self_of_head _ _ _ (by rw [hrev]; exact h2)]
          rw [← hv, List.reverse_reverse]

theorem stripPy_cons_space (t : Txt) : stripPy (32 :: t) = stripPy t := by
  rw [stripPy, stripPy]
  congr 1

theorem stripPy_all_nospace (t : Txt) (h : ∀ c ∈ t, isPySpace c = false) : stripPy t = t := by
  cases t with
  | nil => rfl
  | cons c r =>
      refine stripPy_eq_self _ (by simp) (h c (by simp)) ?_
      have hrv := head_reverse_getLast (c :: r) 0
      rw [← hrv]
      cases hv : (c :: r).reverse with
      | nil => simp at hv
      | cons x xs =>
          have hx : x ∈ (c :: r).reverse := by rw [hv]; simp
          simp only [List.headD_cons]
          exact h x (List.mem_reverse.mp hx)

theorem stripPy_spaces_append (k : Nat) (t : Txt) :
    stripPy (spaces k ++ t) = stripPy t := by
  induction k with
  | zero => rfl
  | succ k ih =>
      have : spaces (k + 1) ++ t = 32 :: (spaces k ++ t) := by
        simp [spaces, List.replicate_succ]
      rw [this, stripPy_cons_space, ih]

theorem headD_append_left (a b : Txt) (d : Nat) (h : a ≠ []) :
    (a ++ b).headD d = a.headD d := by
  cases a with
  | nil => exact absurd rfl h
  | cons c r => rfl

theorem getLastD_append_right (a b : Txt) (d : Nat) (h : b ≠ []) :
    (a ++ b).getLastD d = b.getLastD d := by
  rw [← head_reverse_getLast, ← head_reverse_getLast]
  rw [List.reverse_append]
  exact headD_append_left _ _ _ (by simpa using h)

theorem isPrefixOf_cons_ne (p : Txt) (h c : Nat) (r : Txt) (hp : p.headD 0 = h) (hne : p ≠ [])
    (hch : c ≠ h) : p.isPrefixOf (c :: r) = false := by
  cases p with
  | nil => exact absurd rfl hne
  | cons x xs =>
      simp only [List.headD_cons] at hp
      subst hp
      simp [List.isPrefixOf, hch, Ne.symm hch]

theorem hasSub_append_mid (p a b : Txt) (hpne : p ≠ []) : hasSub p (a ++ p ++ b) = true := by
  induction a with
  | nil =>
      cases hp : p with
      | nil => exact absurd hp hpne
      | cons x xs =>
          rw [← hp]
          have h1 : p.isPrefixOf (p ++ b) = true := by
            rw [List.isPrefixOf_iff_prefix]
            exact List.prefix_append _ _
          have h2 : [] ++ p ++ b = p ++ b := by simp
          rw [h2]
          cases hq : p ++ b with
          | nil => rw [hq] at h1; rw [hasSub]; simpa using h1
          | cons y ys => rw [hasSub, ← hq, h1]; rfl
  | cons c a' ih =>
      have : (c :: a') ++ p ++ b = c :: (a' ++ p ++ b) := by simp
      rw [this, hasSub, ih]
      simp

theorem hasSub_false_of_not_mem (p t : Txt) (h : Nat) (hh : h ∈ p) (hm : h ∉ t) :
    hasSub p t = false := by
  induction t with
  | nil =>
      rw [hasSub]
      cases p with
      | nil => simp at hh
      | cons x xs => rfl
  | cons c r ih =>
      rw [hasSub]
      have h1 : p.isPrefixOf (c :: r) = false := by
        by_contra hcon
        have hpre : p <+: c :: r := by
          rw [← List.isPrefixOf_iff_prefix]
          exact Bool.of_not_eq_false hcon
        have := hpre.subset hh
        exact hm this
      rw [h1, ih (fun hx => hm (by simp [hx]))]
      rfl

theorem splitOnce_of_first (sep : Txt) (h : Nat) (hh : sep.headD 0 = h) (hne : sep ≠ []) :
    ∀ (a b : Txt), h ∉ a → splitOnce sep (a ++ sep ++ b) = some (a, b) := by
  intro a
  induction a with
  | nil =>
      intro b _
      have h0 : [] ++ sep ++ b = sep ++ b := by simp
      rw [h0]
      cases hs : sep ++ b with
      | nil => cases sep with | nil => exact absurd rfl hne | cons x xs => simp at hs
      | cons y ys =>
          rw [splitOnce, ← hs]
          have h1 : sep.isPrefixOf (sep ++ b) = true := by
            rw [List.isPrefixOf_iff_prefix]; exact List.prefix_append _ _
          rw [if_pos h1]
          rw [List.drop_left]
  | cons c a' ih =>
      intro b hm
      have hc : c ≠ h := fun hc => hm (by simp [hc])
      have h0 : (c :: a') ++ sep ++ b = c :: (a' ++ sep ++ b) := by simp
      rw [h0, splitOnce]
      rw [if_neg (by rw [isPrefixOf_cons_ne sep h c _ hh hne hc]; simp)]
      rw [ih b (fun hx => hm (by simp [hx]))]
      rfl

theorem hasSub_some_splitOnce (p : Txt) (hpne : p ≠ []) :
    ∀ t, hasSub p t = true → ∃ ab, splitOnce p t = some ab := by
  intro t
  induction t with
  | nil =>
      intro h
      rw [hasSub] at h
      cases p with
      | nil => exact absurd rfl hpne
      | cons x xs => simp at h
  | cons c r ih =>
      intro h
      rw [hasSub] at h
      rw [splitOnce]
      rcases Bool.or_eq_true_iff.mp h with h1 | h1
      · exact ⟨_, by rw [if_pos h1]⟩
      · by_cases hp : p.isPrefixOf (c :: r) = true
        · exact ⟨_, by rw [if_pos hp]⟩
        · obtain ⟨ab, hab⟩ := ih h1
          refine ⟨(c :: ab.1, ab.2), ?_⟩
          rw [if_neg hp, hab]
          rfl

theorem filter_ne32_eq_self (t : Txt) (h : ∀ c ∈ t, c ≠ 32) : dropSpaces t = t := by
  rw [dropSpaces, List.filter_eq_self]
  intro a ha
  simpa using h a ha

/-! ### `splitlines` / `join` -/

theorem slAux_cons (c : Nat) (r acc : Txt) :
    slAux (c :: r) acc =
      if c = 13 then
        match r with
        | [] => acc.reverse :: slAux [] []
        | c2 :: rest2 =>
            if c2 = 10 then acc.reverse :: slAux rest2 []
            else acc.reverse :: slAux (c2 :: rest2) []
      else if isLB c then acc.reverse :: slAux r [] else slAux r (c :: acc) := by
  rw [slAux.eq_def]
  rfl

theorem slAux_lbFree (l : Txt) (hl : ∀ c ∈ l, isLB c = false) :
    ∀ acc, slAux l acc = if (acc.reverse ++ l).isEmpty then [] else [acc.reverse ++ l] := by
  induction l with
  | nil =>
      intro acc
      simp only [slAux, List.append_nil]
      cases acc with
      | nil => rfl
      | cons a as => simp
  | cons c r ih =>
      intro acc
      have hc : isLB c = false := hl c (by simp)
      have h13 : c ≠ 13 := by intro h; rw [h] at hc; simp [isLB] at hc
      rw [slAux_cons, if_neg h13, if_neg (by simp [hc])]
      rw [ih (fun x hx => hl x (by simp [hx])) (c :: acc)]
      simp only [List.reverse_cons, List.append_assoc, List.singleton_append]

theorem slAux_lb_split (l : Txt) (hl : ∀ c ∈ l, isLB c = false) :
    ∀ (rest : Txt) acc, slAux (l ++ 10 :: rest) acc = (acc.reverse ++ l) :: slAux rest [] := by
  induction l with
  | nil =>
      intro rest acc
      simp only [List.nil_append]
      rw [slAux_cons, if_neg (by norm_num), if_pos (by simp [isLB])]
      simp only [List.append_nil]
  | cons c r ih =>
      intro rest acc
      have hc : isLB c = false := hl c (by simp)
      have h13 : c ≠ 13 := by intro h; rw [h] at hc; simp [isLB] at hc
      rw [List.cons_append, slAux_cons, if_neg h13, if_neg (by simp [hc])]
      rw [ih (fun x hx => hl x (by simp [hx])) rest (c :: acc)]
      simp only [List.reverse_cons, List.append_assoc, List.singleton_append]

theorem splitlines_joinNL (ls : List Txt)
    (h : ∀ l ∈ ls, l ≠ [] ∧ ∀ c ∈ l, isLB c = false) :
    splitlinesPy (joinNL ls) = ls := by
  induction ls with
  | nil => rfl
  | cons l ls ih =>
      obtain ⟨hne, hlb⟩ := h l (by simp)
      cases ls with
      | nil =>
          rw [joinNL, splitlinesPy, slAux_lbFree l hlb []]
          simp [hne]
      | cons l2 ls2 =>
          rw [joinNL, splitlinesPy, slAux_lb_split l hlb _ []]
          simp only [List.reverse_nil, List.nil_append]
          rw [← splitlinesPy, ih (fun x hx => h x (by simp [hx]))]

/-! ### `split()` / `join` on words -/

theorem swAux_nospace_ne : ∀ (t acc : Txt), (∀ c ∈ t, isPySpace c = false) →
    ¬(acc = [] ∧ t = []) → swAux t acc = [acc.reverse ++ t] := by
  intro t
  induction t with
  | nil =>
      intro acc _ hne
      have : acc ≠ [] := fun h => hne ⟨h, rfl⟩
      rw [swAux]
      simp [this]
  | cons c r ih =>
      intro acc hns _
      rw [swAux, if_neg (by simp [hns c (by simp)])]
      rw [ih (c :: acc) (fun x hx => hns x (by simp [hx])) (by simp)]
      simp

theorem splitWS_single (w : Txt) (hne : w ≠ []) (hns : ∀ c ∈ w, isPySpace c = false) :
    splitWS w = [w] := by
  rw [splitWS, swAux_nospace_ne w [] hns (by simp [hne])]
  simp

theorem swAux_word_sep : ∀ (w acc rest : Txt), (∀ c ∈ w, isPySpace c = false) →
    ¬(acc = [] ∧ w = []) → swAux (w ++ 32 :: rest) acc = (acc.reverse ++ w) :: swAux rest [] := by
  intro w
  induction w with
  | nil =>
      intro acc rest _ hne
      have hacc : acc ≠ [] := fun h => hne ⟨h, rfl⟩
      simp only [List.nil_append]
      rw [swAux, if_pos (by simp [isPySpace])]
      simp [hacc]
  | cons c r ih =>
      intro acc rest hns _
      rw [List.cons_append, swAux, if_neg (by simp [hns c (by simp)])]
      rw [ih (c :: acc) rest (fun x hx => hns x (by simp [hx])) (by simp)]
      simp

theorem splitWS_joinSp : ∀ (ws : List Txt),
    (∀ w ∈ ws, w ≠ [] ∧ ∀ c ∈ w, isPySpace c = false) → splitWS (joinSp ws) = ws := by
  intro ws
  induction ws with
  | nil => intro _; rfl
  | cons w ws ih =>
      intro h
      obtain ⟨hne, hns⟩ := h w (by simp)
      cases ws with
      | nil => rw [joinSp]; exact splitWS_single w hne hns
      | cons w2 ws2 =>
          rw [joinSp, splitWS, swAux_word_sep w [] _ hns (by simp [hne])]
          simp only [List.reverse_nil, List.nil_append]
          rw [← splitWS, ih (fun x hx => h x (by simp [hx]))]

/-! ### `writeAt` index lemmas -/

theorem writeAt_length (bs : List Nat) (o : Nat) (vs : List Nat)
    (h : o + vs.length ≤ bs.length) : (writeAt bs o vs).length = bs.length := by
  simp [writeAt]
  omega

theorem writeAt_getElem?_lt (bs : List Nat) (o : Nat) (vs : List Nat) (i : Nat)
    (hi : i < o) (ho : o ≤ bs.length) : (writeAt bs o vs)[i]? = bs[i]? := by
  rw [writeAt, List.append_assoc, List.getElem?_append_left (by simp; omega),
    List.getElem?_take_of_lt hi]

theorem writeAt_getElem?_ge (bs : List Nat) (o : Nat) (vs : List Nat) (i : Nat)
    (hi : o + vs.length ≤ i) (ho : o + vs.length ≤ bs.length) :
    (writeAt bs o vs)[i]? = bs[i]? := by
  have hto : (bs.take o).length = o := by simp; omega
  rw [writeAt, List.append_assoc, List.getElem?_append_right (by rw [hto]; omega), hto]
  rw [List.getElem?_append_right (by omega)]
  rw [List.getElem?_drop]
  congr 1
  omega

theorem writeAt_getD_lt (bs : List Nat) (o : Nat) (vs : List Nat) (i d : Nat)
    (hi : i < o) (ho : o ≤ bs.length) : (writeAt bs o vs).getD i d = bs.getD i d := by
  rw [List.getD_eq_getElem?_getD, List.getD_eq_getElem?_getD,
    writeAt_getElem?_lt bs o vs i hi ho]

theorem writeAt_getD_ge (bs : List Nat) (o : Nat) (vs : List Nat) (i d : Nat)
    (hi : o + vs.length ≤ i) (ho : o + vs.length ≤ bs.length) :
    (writeAt bs o vs).getD i d = bs.getD i d := by
  rw [List.getD_eq_getElem?_getD, List.getD_eq_getElem?_getD,
    writeAt_getElem?_ge bs o vs i hi ho]

/-! ### Generic list lemmas -/

theorem findIdx?_first (p : Txt → Bool) : ∀ (xs : List Txt) (y : Txt) (ys : List Txt),
    (∀ x ∈ xs, p x = false) → p y = true →
    List.findIdx? p (xs ++ y :: ys) = some xs.length := by
  intro xs
  induction xs with
  | nil => intro y ys _ hy; simp [hy]
  | cons x xs ih =>
      intro y ys hxs hy
      rw [List.cons_append, List.findIdx?_cons, if_neg (by simp [hxs x (by simp)])]
      rw [List.findIdx?_succ, ih y ys (fun z hz => hxs z (by simp [hz])) hy]
      rfl

theorem drop_at_cons (xs : List Txt) (y : Txt) (ys : List Txt) :
    (xs ++ y :: ys).drop (xs.length + 1) = ys := by
  induction xs with
  | nil => simp
  | cons x xs ih => simp [ih]

theorem mapM_some_forall2 {α β : Type} (f : α → Option β) :
    ∀ (xs : List α) (ys : List β), xs.mapM f = some ys →
    List.Forall₂ (fun x y => f x = some y) xs ys := by
  intro xs
  induction xs with
  | nil =>
      intro ys h
      simp only [List.mapM_nil, pure, Option.some.injEq] at h
      subst h
      exact List.Forall₂.nil
  | cons x xs ih =>
      intro ys h
      rw [List.mapM_cons] at h
      cases hx : f x with
      | none => rw [hx] at h; simp [bind] at h
      | some y =>
          rw [hx] at h
          cases hxs : xs.mapM f with
          | none => rw [hxs] at h; simp [bind] at h
          | some ys' =>
              rw [hxs] at h
              simp at h
              subst h
              exact List.Forall₂.cons hx (ih ys' hxs)

theorem chunks_flatten (k : Nat) :
    ∀ (n : Nat) (body : List Nat), body.length = k * n →
    ((List.range n).map (fun i => sliceLen body (k * i) k)).flatten = body := by
  intro n
  induction n with
  | zero =>
      intro body h
      have hb : body = [] := List.length_eq_zero.mp (by omega)
      subst hb
      rfl
  | succ n ih =>
      intro body h
      rw [List.range_succ_eq_map]
      simp only [List.map_cons, List.map_map, List.flatten_cons]
      have h1 : sliceLen body (k * 0) k = body.take k := by simp [sliceLen]
      have h2 : ∀ i : Nat, sliceLen body (k * (i + 1)) k = sliceLen (body.drop k) (k * i) k := by
        intro i
        simp [sliceLen, List.drop_drop]
        congr 2
        ring
      have h3 : ((List.range n).map (fun i => sliceLen body (k * (i + 1)) k)).flatten =
          body.drop k := by
        have heq : ((List.range n).map (fun i => sliceLen body (k * (i + 1)) k)) =
            (List.range n).map (fun i => sliceLen (body.drop k) (k * i) k) :=
          List.map_congr_left (fun i _ => h2 i)
        rw [heq]
        refine ih (body.drop k) ?_
        simp [h]
        calc k * (n + 1) - k = k * n + k - k := by ring_nf
        _ = k * n := by omega
      have hcomp : (fun i => sliceLen body (k * i) k) ∘ (fun i => i + 1) =
          fun i => sliceLen body (k * (i + 1)) k := rfl
      rw [h1]
      calc body.take k ++ ((List.range n).map ((fun i => sliceLen body (k * i) k) ∘ (fun i => i + 1))).flatten
      _ = body.take k ++ ((List.range n).map (fun i => sliceLen body (k * (i + 1)) k)).flatten := by rw [hcomp]
      _ = body.take k ++ body.drop k := by rw [h3]
      _ = body := List.take_append_drop k body

/-! ### Line-shape predicates -/

theorem nospace_of_range (c : Nat) (h1 : 48 ≤ c) (h2 : c ≤ 70) : isPySpace c = false := by
  simp [isPySpace]
  omega

theorem hexConcat_ne_nil (bs : List Nat) (h : bs ≠ []) : hexConcat bs ≠ [] := by
  intro hc
  have hl := hexConcat_length bs
  rw [hc] at hl
  simp only [List.length_nil] at hl
  exact h (List.length_eq_zero.mp (by omega))

theorem mem_getLastD (l : Txt) (d : Nat) (h : l ≠ []) : l.getLastD d ∈ l := by
  rw [← head_reverse_getLast]
  cases hv : l.reverse with
  | nil => exact absurd (by simpa using hv) h
  | cons x xs =>
      simp only [List.headD_cons]
      exact List.mem_reverse.mp (by rw [hv]; simp)

theorem cmdName_noHash : ∀ cmd < 128, 35 ∉ cmdName cmd := by decide

theorem intStr_noHash (i : Int) : 35 ∉ intStr i := by
  intro h
  rcases intStr_chars _ h with h | h <;> omega

theorem mem_trimZeros (t : Txt) (c : Nat) (h : c ∈ trimZeros t) : c ∈ t := by
  rw [trimZeros] at h
  have h2 := List.mem_reverse.mp h
  exact List.mem_reverse.mp ((List.dropWhile_sublist _).subset h2)

theorem padDigs_digits (k n : Nat) : ∀ c ∈ padDigs k n, 48 ≤ c ∧ c ≤ 57 := by
  intro c h
  simp only [padDigs, List.mem_append, List.mem_replicate] at h
  rcases h with h | h
  · omega
  · exact natStr_digits _ h

theorem sclDisp_chars (num : Int) (den : Nat) :
    ∀ c ∈ sclDisp num den, c = 45 ∨ c = 46 ∨ (48 ≤ c ∧ c ≤ 57) := by
  intro c h
  rw [sclDisp] at h
  split at h
  · rcases intStr_chars _ h with h | h
    · exact Or.inl h
    · exact Or.inr (Or.inr h)
  · have hfr : ∀ x ∈ trimZeros (padDigs (scaleDigs den) (num.natAbs % den)), 48 ≤ x ∧ x ≤ 57 :=
      fun x hx => padDigs_digits _ _ x (mem_trimZeros _ x hx)
    rcases List.mem_append.mp h with h | h
    · rcases List.mem_append.mp h with h | h
      · rcases List.mem_append.mp h with h | h
        · split at h
          · exact Or.inl (List.mem_singleton.mp h)
          · simp at h
        · exact Or.inr (Or.inr (natStr_digits _ h))
      · exact Or.inr (Or.inl (List.mem_singleton.mp h))
    · exact Or.inr (Or.inr (hfr c h))

theorem mem_joinSp : ∀ (ws : List Txt) (c : Nat), c ∈ joinSp ws → c = 32 ∨ ∃ w ∈ ws, c ∈ w := by
  intro ws
  induction ws with
  | nil => intro c h; simp [joinSp] at h
  | cons w ws ih =>
      intro c h
      cases ws with
      | nil => exact Or.inr ⟨w, by simp, by simpa [joinSp] using h⟩
      | cons w2 ws2 =>
          rw [joinSp] at h
          rcases List.mem_append.mp h with h | h
          · exact Or.inr ⟨w, by simp, h⟩
          · rcases List.mem_cons.mp h with h | h
            · exact Or.inl h
            · rcases ih c h with h | ⟨w', hw', hc⟩
              · exact Or.inl h
              · exact Or.inr ⟨w', by simp [hw'], hc⟩

theorem forall2_mem_right {α β : Type} {R : α → β → Prop} :
    ∀ {xs : List α} {ys : List β}, List.Forall₂ R xs ys → ∀ y ∈ ys, ∃ x ∈ xs, R x y := by
  intro xs ys h
  induction h with
  | nil => intro y hy; simp at hy
  | @cons a b as bs hr hrest ih =>
      intro y hy
      rcases List.mem_cons.mp hy with hy | hy
      · exact ⟨a, by simp, hy ▸ hr⟩
      · obtain ⟨x, hx, hxy⟩ := ih y hy
        exact ⟨x, by simp [hx], hxy⟩

theorem recLine_shape (P : PyOps) (hP : ∀ b, 35 ∉ P.fmtRec b) (rec : List Nat) (l : Txt)
    (h : recLine P rec = some l) :
    ∃ left, goodLeft left ∧ l = withRaw left (hexConcat rec) := by
  rw [recLine] at h
  split at h
  · refine ⟨chars "FF Padding", by unfold goodLeft; decide, ?_⟩
    injection h with h
    exact h.symm
  · dsimp only at h
    have hcmdlt : byteAt rec 15 % 128 < 128 := Nat.mod_lt _ (by norm_num)
    cases hm : (recParams rec (byteAt rec 15 % 128)).mapM (ptokDisp P) with
    | none => rw [hm] at h; simp at h
    | some toks =>
        rw [hm] at h
        simp only [Option.some.injEq] at h
        have htoks : ∀ t ∈ toks, 35 ∉ t := by
          intro t ht hmem
          have hall := mapM_some_forall2 (ptokDisp P) _ _ hm
          obtain ⟨ptok, -, hdisp⟩ := forall2_mem_right hall t ht
          cases ptok with
          | pint i =>
              rw [ptokDisp] at hdisp
              injection hdisp with hd
              rw [← hd] at hmem
              exact intStr_noHash i hmem
          | pscl n d =>
              rw [ptokDisp] at hdisp
              injection hdisp with hd
              rw [← hd] at hmem
              rcases sclDisp_chars n d 35 hmem with hx | hx | hx <;> omega
          | pflt bits =>
              rw [ptokDisp] at hdisp
              split at hdisp
              · exact absurd hdisp (by simp)
              · injection hdisp with hd
                rw [← hd] at hmem
                exact hP bits hmem
        have hd1 : byteAt rec 15 / 16 % 16 < 16 := Nat.mod_lt _ (by norm_num)
        have hdig := digCh_range _ hd1
        have hhead : ∀ X : Txt, (hex2 (byteAt rec 15) ++ X).headD 0 =
            digCh (byteAt rec 15 / 16 % 16) := by
          intro X; rfl
        have hgood : ∀ X : Txt, 35 ∉ X → goodLeft (hex2 (byteAt rec 15) ++ X) := by
          intro X hX
          refine ⟨by simp [hex2], ?_, ?_, ?_, ?_⟩
          · rw [hhead]; exact nospace_of_range _ hdig.1 hdig.2.1
          · rw [hhead]; omega
          · rw [hhead]; exact hdig.2.2
          · intro hm35
            rcases List.mem_append.mp hm35 with hm35 | hm35
            · have h2 := digCh_range (byteAt rec 15 % 16) (Nat.mod_lt _ (by norm_num))
              simp only [hex2, List.mem_cons, List.not_mem_nil, or_false] at hm35
              rcases hm35 with hm35 | hm35 <;> omega
            · exact hX hm35
        split at h
        · refine ⟨hex2 (byteAt rec 15) ++ ([32] ++ cmdName (byteAt rec 15 % 128)), ?_, ?_⟩
          · refine hgood _ ?_
            intro hm2
            simp only [List.cons_append, List.nil_append] at hm2
            rcases List.mem_cons.mp hm2 with hm2 | hm2
            · omega
            · exact cmdName_noHash _ hcmdlt hm2
          · rw [← h]
            simp [withRaw]
        · refine ⟨hex2 (byteAt rec 15) ++
            ([32] ++ (cmdName (byteAt rec 15 % 128) ++ [32] ++ joinSp toks)), ?_, ?_⟩
          · refine hgood _ ?_
            intro hm2
            simp only [List.cons_append, List.nil_append] at hm2
            rcases List.mem_cons.mp hm2 with hm2 | hm2
            · omega
            · rcases List.mem_append.mp hm2 with hm2 | hm2
              · rcases List.mem_append.mp hm2 with hm2 | hm2
                · exact cmdName_noHash _ hcmdlt hm2
                · simp at hm2
              · rcases mem_joinSp toks 35 hm2 with hm2 | ⟨w, hw, hc⟩
                · omega
                · exact htoks w hw hc
          · rw [← h]
            simp [withRaw]

/-! ### Decoded-line processing lemmas -/

theorem isPrefixOf_false_of_head_ne (p t : Txt) (hp : p.headD 0 = 61) (hpne : p ≠ [])
    (ht : t.headD 0 ≠ 61) (htne : t ≠ []) : p.isPrefixOf t = false := by
  cases t with
  | nil => exact absurd rfl htne
  | cons c r =>
      exact isPrefixOf_cons_ne p 61 c r hp hpne (by simpa using ht)

theorem withRaw_ne_nil (left raw : Txt) (h : left ≠ []) : withRaw left raw ≠ [] := by
  cases left with
  | nil => exact absurd rfl h
  | cons c r => simp [withRaw]

theorem withRaw_headD (left raw : Txt) (h : left ≠ []) :
    (withRaw left raw).headD 0 = left.headD 0 := by
  rw [withRaw, List.append_assoc, List.append_assoc]
  exact headD_append_left _ _ _ h

theorem withRaw_strip (left raw : Txt) (hlne : left ≠ [])
    (hh : isPySpace (left.headD 0) = false) (hrne : raw ≠ [])
    (hrc : ∀ c ∈ raw, 48 ≤ c ∧ c ≤ 70) : stripPy (withRaw left raw) = withRaw left raw := by
  apply stripPy_eq_self _ (withRaw_ne_nil left raw hlne)
  · rw [withRaw_headD left raw hlne]
    exact hh
  · rw [withRaw, getLastD_append_right _ _ _ hrne]
    have hm := mem_getLastD raw 0 hrne
    have := hrc _ hm
    exact nospace_of_range _ this.1 this.2

theorem withRaw_hasSub (left raw : Txt) : hasSub rawMark (withRaw left raw) = true := by
  have hsplit : chars "# raw: " = rawMark ++ [32] := by decide
  rw [withRaw, hsplit]
  have hre : left ++ spaces (max 1 (60 - left.length - 1)) ++ (rawMark ++ [32]) ++ raw =
      (left ++ spaces (max 1 (60 - left.length - 1))) ++ rawMark ++ ([32] ++ raw) := by
    simp [List.append_assoc]
  rw [hre]
  exact hasSub_append_mid rawMark _ _ (by decide)

theorem withRaw_splitOnce (left raw : Txt) (h35 : 35 ∉ left) :
    splitOnce rawMark (withRaw left raw) =
      some (left ++ spaces (max 1 (60 - left.length - 1)), 32 :: raw) := by
  have hsplit : chars "# raw: " = rawMark ++ [32] := by decide
  rw [withRaw, hsplit]
  have hre : left ++ spaces (max 1 (60 - left.length - 1)) ++ (rawMark ++ [32]) ++ raw =
      (left ++ spaces (max 1 (60 - left.length - 1))) ++ rawMark ++ (32 :: raw) := by
    simp [List.append_assoc]
  rw [hre]
  apply splitOnce_of_first rawMark 35 (by decide) (by decide)
  intro hm
  rcases List.mem_append.mp hm with hm | hm
  · exact h35 hm
  · rw [spaces, List.mem_replicate] at hm
    omega

theorem encRecs_raw_step (P : PyOps) (left : Txt) (rec : List Nat) (rest : List Txt)
    (hg : goodLeft left) (hb : ∀ b ∈ rec, b < 256) (hlen : rec.length = 16) :
    encRecs P (withRaw left (hexConcat rec) :: rest) =
      (encRecs P rest).map (fun pr => (rec ++ pr.1, pr.2 + 1)) := by
  obtain ⟨hlne, hsp, h35h, h61, h35⟩ := hg
  have hrc := hexConcat_chars rec
  have hrecne : rec ≠ [] := by intro hr; rw [hr] at hlen; simp at hlen
  have hxne : hexConcat rec ≠ [] := hexConcat_ne_nil rec hrecne
  have hstrip := withRaw_strip left (hexConcat rec) hlne hsp hxne
    (fun c hc => ⟨(hrc c hc).1, (hrc c hc).2.1⟩)
  have hnenil := withRaw_ne_nil left (hexConcat rec) hlne
  have hhd := withRaw_headD left (hexConcat rec) hlne
  rw [encRecs]
  rw [hstrip]
  rw [if_neg (by simp [hnenil])]
  rw [if_neg (by rw [hhd]; exact h35h)]
  rw [if_neg (by
    rw [isPrefixOf_false_of_head_ne _ _ (by decide) (by decide) (by rw [hhd]; exact h61) hnenil]
    simp)]
  rw [if_pos (withRaw_hasSub left (hexConcat rec))]
  rw [withRaw_splitOnce left (hexConcat rec) h35]
  have hstr32 : stripPy (32 :: hexConcat rec) = hexConcat rec := by
    rw [stripPy_cons_space]
    exact stripPy_all_nospace _ (fun c hc => nospace_of_range c (hrc c hc).1 (hrc c hc).2.1)
  dsimp only
  rw [hstr32]
  rw [filter_ne32_eq_self _ (fun c hc => by have := hrc c hc; omega)]
  rw [if_neg (by rw [hexConcat_length, hlen]; simp)]
  rw [hexDec_hexConcat rec hb]

theorem countLine_cons (n : Nat) : countLine n = 35 :: 32 :: (natStr n ++ chars " records") := by
  rw [countLine, List.append_assoc]
  rfl

theorem countLine_strip (n : Nat) : stripPy (countLine n) = countLine n := by
  apply stripPy_eq_self
  · rw [countLine_cons]; simp
  · rw [countLine_cons]
    simp only [List.headD_cons]
    decide
  · rw [countLine, getLastD_append_right _ _ _ (by decide)]
    decide

theorem encRecs_comment (P : PyOps) (n : Nat) (rest : List Txt) :
    encRecs P (countLine n :: rest) = (encRecs P rest).map (fun pr => (pr.1, pr.2 + 1)) := by
  rw [encRecs, countLine_strip]
  rw [if_neg (by rw [countLine_cons]; simp)]
  rw [if_pos (by rw [countLine_cons]; simp)]

theorem encRecs_hdrStop (P : PyOps) (rest : List Txt) :
    encRecs P (hdrDecoded :: rest) = .ok ([], 0) := by
  rw [encRecs]
  rw [show stripPy hdrDecoded = hdrDecoded from by decide]
  rw [if_neg (by decide), if_neg (by decide), if_pos (by decide)]

theorem encRecs_decoded (P : PyOps) (recs : List (List Nat)) (lns rest : List Txt)
    (hrel : List.Forall₂ (fun (r : List Nat) (l : Txt) =>
      (∃ left, goodLeft left ∧ l = withRaw left (hexConcat r)) ∧
      (∀ b ∈ r, b < 256) ∧ r.length = 16) recs lns) :
    encRecs P (lns ++ hdrDecoded :: rest) = .ok (recs.flatten, lns.length) := by
  induction hrel with
  | nil =>
      simp only [List.nil_append, List.flatten_nil, List.length_nil]
      exact encRecs_hdrStop P rest
  | @cons r l recs' lns' hhead htail ih =>
      obtain ⟨⟨left, hgl, hleq⟩, hb, hlen⟩ := hhead
      rw [List.cons_append, hleq, encRecs_raw_step P left r _ hgl hb hlen, ih]
      simp only [List.flatten_cons, List.length_cons]
      rfl

/-! ### SysMem-section skip lemmas -/

theorem skipLine_withRaw (left raw : Txt) (hlne : left ≠ [])
    (hsp : isPySpace (left.headD 0) = false) (h61 : left.headD 0 ≠ 61)
    (hrne : raw ≠ []) (hrc : ∀ c ∈ raw, 48 ≤ c ∧ c ≤ 70) :
    skipLine (withRaw left raw) :=
  ⟨withRaw_strip left raw hlne hsp hrne hrc, withRaw_ne_nil left raw hlne,
    by rw [withRaw_headD left raw hlne]; exact h61, withRaw_hasSub left raw⟩

theorem mem35_withRaw (left raw : Txt) : 35 ∈ withRaw left raw := by
  rw [withRaw]
  refine List.mem_append.mpr (Or.inl (List.mem_append.mpr (Or.inr ?_)))
  decide

theorem ne_hdrUnmapped_of_skip (l : Txt) (h : skipLine l) : (l == hdrUnmapped) = false := by
  rw [beq_eq_false_iff_ne]
  intro he
  have h35 : 35 ∈ l := by
    obtain ⟨-, -, -, hraw⟩ := h
    subst he
    revert hraw
    decide
  rw [he] at h35
  revert h35
  decide

theorem toReenc_skip (ln : Txt) (h : skipLine ln) (rest : List Txt) :
    toReenc (ln :: rest) = toReenc rest := by
  obtain ⟨hs, hne, h61, hraw⟩ := h
  rw [toReenc, hs]
  rw [if_neg (by
    rw [isPrefixOf_false_of_head_ne hdrUnmapped ln (by decide) (by decide) h61 hne]
    simp)]
  rw [if_neg (by simp [hraw])]

theorem toReenc_skips (ls : List Txt) (h : ∀ l ∈ ls, skipLine l) (rest : List Txt) :
    toReenc (ls ++ rest) = toReenc rest := by
  induction ls with
  | nil => rfl
  | cons l ls ih =>
      rw [List.cons_append, toReenc_skip l (h l (by simp)) _]
      exact ih (fun x hx => h x (by simp [hx]))

theorem toReenc_hdrDecoded (rest : List Txt) :
    toReenc (hdrDecoded :: rest) = toReenc rest := by
  rw [toReenc]
  rw [show stripPy hdrDecoded = hdrDecoded from by decide]
  rw [if_neg (by decide), if_neg (by decide)]

theorem toReenc_stop (rest : List Txt) : toReenc (hdrUnmapped :: rest) = [] := by
  rw [toReenc]
  rw [show stripPy hdrUnmapped = hdrUnmapped from by decide]
  rw [if_pos (by exact List.isPrefixOf_iff_prefix.mpr (List.prefix_refl _))]

theorem encSysLoop_skip (P : PyOps) (ln : Txt) (h : skipLine ln) (rest : List Txt)
    (buf : List Nat) (bits : Option Nat) :
    encSysLoop P (ln :: rest) buf bits = encSysLoop P rest buf bits := by
  obtain ⟨hs, hne, h61, hraw⟩ := h
  rw [encSysLoop, hs]
  rw [if_neg (by simp [hne])]
  rw [if_neg (by
    rw [isPrefixOf_false_of_head_ne (chars "=====") ln (by decide) (by decide) h61 hne]
    simp)]
  by_cases hcol : hasSub [58] ln = true
  · rw [if_neg (by simp [hcol])]
    obtain ⟨ab, hab⟩ := hasSub_some_splitOnce [58] (by decide) ln hcol
    rw [hab]
    simp only [hraw, if_true]
  · rw [if_pos (by simp [hcol])]

theorem encSysLoop_skips (P : PyOps) (ls : List Txt) (h : ∀ l ∈ ls, skipLine l)
    (rest : List Txt) (buf : List Nat) (bits : Option Nat) :
    encSysLoop P (ls ++ rest) buf bits = encSysLoop P rest buf bits := by
  induction ls with
  | nil => rfl
  | cons l ls ih =>
      rw [List.cons_append, encSysLoop_skip P l (h l (by simp)) _ _ _]
      exact ih (fun x hx => h x (by simp [hx]))

theorem encSysLoop_stop (P : PyOps) (rest : List Txt) (buf : List Nat) (bits : Option Nat) :
    encSysLoop P (hdrUnmapped :: rest) buf bits = .ok (buf, bits) := by
  rw [encSysLoop]
  rw [show stripPy hdrUnmapped = hdrUnmapped from by decide]
  rw [if_neg (by decide), if_pos (by decide)]

theorem hex4_chars (w : Nat) : ∀ c ∈ hex4 w, 48 ≤ c ∧ c ≤ 70 := by
  intro c h
  simp only [hex4, List.mem_cons, List.not_mem_nil, or_false] at h
  rcases h with h | h | h | h <;>
    · subst h
      refine ⟨(digCh_range _ ?_).1, (digCh_range _ ?_).2.1⟩ <;>
        exact Nat.mod_lt _ (by norm_num)

theorem fieldTab_names : ∀ e ∈ fieldTab, chars e.1 ≠ [] ∧
    isPySpace ((chars e.1).headD 0) = false ∧ (chars e.1).headD 0 ≠ 61 := by decide

theorem fieldTab_sizes : ∀ e ∈ fieldTab,
    (if dtBit e.2.2.1 then True else e.2.1 < 400 ∧ 0 < rawLen e.2.2.1) := by decide

theorem sliceLen_ne_nil (bs : List Nat) (o n : Nat) (ho : o < bs.length) (hn : 0 < n) :
    sliceLen bs o n ≠ [] := by
  apply List.ne_nil_of_length_pos
  simp [sliceLen]
  omega

theorem fieldLine_skip (P : PyOps) (sm : List Nat) (h400 : sm.length = 400)
    (e : String × Nat × DT × Bool) (he : e ∈ fieldTab) (l : Txt)
    (hfl : fieldLine P sm e = some l) : skipLine l ∧ 35 ∈ l := by
  obtain ⟨hne, hsp, h61⟩ := fieldTab_names e he
  have hsz := fieldTab_sizes e he
  rw [fieldLine] at hfl
  split at hfl
  · exact absurd hfl (by simp)
  · rename_i hbit
    rw [if_neg hbit] at hsz
    injection hfl with hfl
    have hlne : chars e.1 ++ chars ": " ++ fieldDisp P sm e.1 e.2.1 e.2.2.1 e.2.2.2 ≠ [] := by
      cases hc : chars e.1 with
      | nil => exact absurd hc hne
      | cons a as => simp
    have hhd : (chars e.1 ++ chars ": " ++
        fieldDisp P sm e.1 e.2.1 e.2.2.1 e.2.2.2).headD 0 = (chars e.1).headD 0 := by
      rw [List.append_assoc]
      exact headD_append_left _ _ _ hne
    have hrne : fieldRaw sm e.2.1 e.2.2.1 ≠ [] := by
      rw [fieldRaw]
      exact hexConcat_ne_nil _ (sliceLen_ne_nil sm _ _ (by omega) hsz.2)
    have hrc : ∀ c ∈ fieldRaw sm e.2.1 e.2.2.1, 48 ≤ c ∧ c ≤ 70 := by
      intro c hc
      have := hexConcat_chars _ c (by rw [fieldRaw] at hc; exact hc)
      exact ⟨this.1, this.2.1⟩
    subst hfl
    refine ⟨skipLine_withRaw _ _ hlne ?_ ?_ hrne hrc, mem35_withRaw _ _⟩
    · rw [hhd]; exact hsp
    · rw [hhd]; exact h61

theorem oLines_skip (sm : List Nat) : ∀ l ∈ oLines sm, skipLine l ∧ 35 ∈ l := by
  intro l hl
  rw [oLines] at hl
  obtain ⟨i, -, hle⟩ := List.mem_map.mp hl
  have hlne : chars "O" ++ natStr (i + 1) ++ chars ": " ++
      boolStr (readU16 sm 83 / 2 ^ i % 2 = 1) ≠ [] := by simp [chars]
  have hhd : (chars "O" ++ natStr (i + 1) ++ chars ": " ++
      boolStr (readU16 sm 83 / 2 ^ i % 2 = 1)).headD 0 = 79 := by
    rw [List.append_assoc, List.append_assoc]
    rfl
  subst hle
  refine ⟨skipLine_withRaw _ _ hlne (by rw [hhd]; decide) (by rw [hhd]; decide)
    (by simp [hex4]) (hex4_chars _), mem35_withRaw _ _⟩

/-! ### Raw-dump parsing lemmas -/

theorem hex2_chars (b : Nat) : ∀ c ∈ hex2 b, 48 ≤ c ∧ c ≤ 70 ∧ c ≠ 61 := by
  intro c h
  simp only [hex2, List.mem_cons, List.not_mem_nil, or_false] at h
  rcases h with h | h <;>
    · subst h
      exact digCh_range _ (Nat.mod_lt _ (by norm_num))

theorem hexRow_words (bs : List Nat) : splitWS (hexRow bs) = bs.map hex2 := by
  rw [hexRow]
  apply splitWS_joinSp
  intro w hw
  obtain ⟨b, -, hbe⟩ := List.mem_map.mp hw
  subst hbe
  exact ⟨by simp [hex2], fun c hc => nospace_of_range c (hex2_chars b c hc).1
    (hex2_chars b c hc).2.1⟩

theorem hexRow_cons2 (b b2 : Nat) (r : List Nat) :
    hexRow (b :: b2 :: r) = hex2 b ++ 32 :: hexRow (b2 :: r) := rfl

theorem hexRow_ne_nil (bs : List Nat) (h : bs ≠ []) : hexRow bs ≠ [] := by
  cases bs with
  | nil => exact absurd rfl h
  | cons b r =>
      cases r with
      | nil => simp [hexRow, joinSp, hex2]
      | cons b2 r2 => rw [hexRow_cons2]; simp [hex2]

theorem hexRow_headD (bs : List Nat) (h : bs ≠ []) :
    (hexRow bs).headD 0 = digCh (bs.headD 0 / 16 % 16) := by
  cases bs with
  | nil => exact absurd rfl h
  | cons b r =>
      cases r with
      | nil => rfl
      | cons b2 r2 => rw [hexRow_cons2]; rfl

theorem getLastD_irrel (l : Txt) (h : l ≠ []) (d d2 : Nat) : l.getLastD d = l.getLastD d2 := by
  rw [List.getLastD_eq_getLast?, List.getLastD_eq_getLast?]
  cases hg : l.getLast? with
  | none => exact absurd (List.getLast?_eq_none_iff.mp hg) h
  | some x => rfl

theorem hexRow_getLastD : ∀ (bs : List Nat), bs ≠ [] →
    isPySpace ((hexRow bs).getLastD 0) = false := by
  intro bs
  induction bs with
  | nil => intro h; exact absurd rfl h
  | cons b r ih =>
      intro _
      cases r with
      | nil =>
          have : hexRow [b] = hex2 b := rfl
          rw [this]
          have hm : (hex2 b).getLastD 0 ∈ hex2 b := mem_getLastD _ _ (by simp [hex2])
          have := hex2_chars b _ hm
          exact nospace_of_range _ this.1 this.2.1
      | cons b2 r2 =>
          rw [hexRow_cons2, getLastD_append_right _ _ _ (by simp)]
          have hne := hexRow_ne_nil (b2 :: r2) (by simp)
          rw [List.getLastD_cons, getLastD_irrel _ hne 32 0]
          exact ih (by simp)

theorem hexRow_strip (bs : List Nat) (h : bs ≠ []) : stripPy (hexRow bs) = hexRow bs := by
  apply stripPy_eq_self _ (hexRow_ne_nil bs h)
  · rw [hexRow_headD bs h]
    have := digCh_range (bs.headD 0 / 16 % 16) (Nat.mod_lt _ (by norm_num))
    exact nospace_of_range _ this.1 this.2.1
  · exact hexRow_getLastD bs h

theorem addToks_hexes : ∀ (bs : List Nat) (acc : List Int), (∀ b ∈ bs, b < 256) →
    acc.length + bs.length ≤ 400 →
    addToks (bs.map hex2) acc = .ok (acc ++ intsOf bs) := by
  intro bs
  induction bs with
  | nil => intro acc _ _; simp [addToks, intsOf]
  | cons b r ih =>
      intro acc hb hlen
      rw [List.map_cons, addToks, if_pos (by simp at hlen ⊢; omega)]
      rw [pyHexInt_hex2 b (hb b (by simp))]
      dsimp only
      rw [ih (acc ++ [Int.ofNat b]) (fun x hx => hb x (by simp [hx])) (by simp at hlen ⊢; omega)]
      simp [intsOf]

theorem rowsLoop_rows : ∀ (bss : List (List Nat)) (acc : List Int) (rest : List Txt),
    bss ≠ [] → (∀ bs ∈ bss, bs ≠ [] ∧ ∀ b ∈ bs, b < 256) →
    acc.length + (bss.map List.length).sum = 400 →
    rowsLoop (bss.map hexRow ++ rest) acc = .ok (acc ++ intsOf bss.flatten) := by
  intro bss
  induction bss with
  | nil => intro acc rest h; exact absurd rfl h
  | cons bs bss' ih =>
      intro acc rest _ hok hsum
      obtain ⟨hbne, hblt⟩ := hok bs (by simp)
      simp only [List.map_cons, List.cons_append]
      rw [rowsLoop, hexRow_strip bs hbne]
      rw [if_neg (by simp [hexRow_ne_nil bs hbne])]
      rw [if_neg (by
        rw [isPrefixOf_false_of_head_ne (chars "=====") _ (by decide) (by decide) ?_
          (hexRow_ne_nil bs hbne)]
        · simp
        · rw [hexRow_headD bs hbne]
          exact (digCh_range _ (Nat.mod_lt _ (by norm_num))).2.2)]
      rw [hexRow_words]
      simp only [List.map_cons, List.sum_cons] at hsum
      rw [addToks_hexes bs acc hblt (by omega)]
      dsimp only
      have hacclen : (acc ++ intsOf bs).length = acc.length + bs.length := by
        simp [intsOf]
      cases bss' with
      | nil =>
          have hsum0 : (List.map List.length ([] : List (List Nat))).sum = 0 := rfl
          rw [hsum0] at hsum
          rw [if_pos (by rw [hacclen]; omega)]
          rw [List.take_of_length_le (by rw [hacclen]; omega)]
          simp [intsOf]
      | cons bs2 bss2 =>
          obtain ⟨hb2ne, -⟩ := hok bs2 (by simp)
          have hpos : 0 < ((bs2 :: bss2).map List.length).sum := by
            simp
            have := List.length_pos.mpr hb2ne
            omega
          rw [if_neg (by rw [hacclen]; omega)]
          rw [ih (acc ++ intsOf bs) rest (by simp)
            (fun x hx => hok x (by simp [hx])) (by rw [hacclen]; omega)]
          simp [intsOf]

theorem bytesOf_map : ∀ (bs : List Nat), (∀ b ∈ bs, b < 256) →
    bytesOf (intsOf bs) = .ok bs := by
  intro bs
  induction bs with
  | nil => intro _; rfl
  | cons b r ih =>
      intro hb
      have hblt := hb b (by simp)
      rw [intsOf, List.map_cons, bytesOf]
      rw [if_pos (by
        refine ⟨Int.ofNat_nonneg b, ?_⟩
        have : (b : Int) ≤ 255 := by exact_mod_cast (by omega : b ≤ 255)
        exact this)]
      rw [← intsOf, ih (fun x hx => hb x (by simp [hx]))]
      rfl

theorem mem_sliceLen (bs : List Nat) (o n b : Nat) (h : b ∈ sliceLen bs o n) : b ∈ bs := by
  rw [sliceLen] at h
  exact List.mem_of_mem_drop (List.mem_of_mem_take h)

theorem parseUnmapped_dump (sm : List Nat) (h400 : sm.length = 400)
    (hb : ∀ b ∈ sm, b < 256) : parseUnmapped (dumpRows sm) = .ok sm := by
  have hrows : dumpRows sm = ((List.range 20).map (fun i => sliceLen sm (20 * i) 20)).map hexRow := by
    rw [dumpRows, List.map_map]
    rfl
  have hchunk : ∀ bs ∈ (List.range 20).map (fun i => sliceLen sm (20 * i) 20),
      bs ≠ [] ∧ ∀ b ∈ bs, b < 256 := by
    intro bs hbs
    obtain ⟨i, hi, hie⟩ := List.mem_map.mp hbs
    simp only [List.mem_range] at hi
    subst hie
    exact ⟨sliceLen_ne_nil sm _ _ (by omega) (by norm_num),
      fun b hbm => hb b (mem_sliceLen sm _ _ b hbm)⟩
  have hsum : (((List.range 20).map (fun i => sliceLen sm (20 * i) 20)).map List.length).sum = 400 := by
    have heach : ∀ i ∈ List.range 20,
        (sliceLen sm (20 * i) 20).length = 20 := by
      intro i hi
      simp only [List.mem_range] at hi
      simp [sliceLen]
      omega
    rw [List.map_map]
    rw [List.map_congr_left (fun i hi => by
      show (List.length ∘ fun i => sliceLen sm (20 * i) 20) i = (fun _ => 20) i
      simp only [Function.comp_apply]
      exact heach i hi)]
    simp [List.map_const']
  have hflat : ((List.range 20).map (fun i => sliceLen sm (20 * i) 20)).flatten = sm :=
    chunks_flatten 20 20 sm (by omega)
  rw [parseUnmapped, hrows]
  rw [show ((List.range 20).map (fun i => sliceLen sm (20 * i) 20)).map hexRow =
    ((List.range 20).map (fun i => sliceLen sm (20 * i) 20)).map hexRow ++ [] from by simp]
  rw [rowsLoop_rows _ [] [] (by simp) hchunk (by simpa using hsum)]
  rw [hflat]
  simp only [List.nil_append]
  exact bytesOf_map sm hb

/-! ### Decode inversion and document structure -/

theorem smOf_length (data : List Nat) (h : 500 ≤ data.length) : (smOf data).length = 400 := by
  simp [smOf]
  omega

theorem bodyOf_length (data : List Nat) : (bodyOf data).length = data.length - 400 := by
  simp [bodyOf]

theorem decodeLines_ok_inv (P : PyOps) (data : List Nat) (doc : List Txt)
    (h : decodeLines P data = .ok doc) :
    500 ≤ data.length ∧ ∃ rls, (recsOf data).mapM (recLine P) = some rls ∧
      doc = countLine (nRecs data) :: (rls ++ sysmemLines P (smOf data)) := by
  rw [decodeLines] at h
  split at h
  · exact absurd h (by simp)
  · rename_i hlen
    cases hm : (recsOf data).mapM (recLine P) with
    | none => rw [hm] at h; exact absurd h (by simp)
    | some rls =>
        rw [hm] at h
        simp only [Except.ok.injEq] at h
        exact ⟨by omega, rls, rfl, h.symm⟩

theorem recsOf_facts (data : List Nat) (hb : ∀ b ∈ data, b < 256)
    (hsz : (data.length - 400) % 16 = 0) :
    ∀ r ∈ recsOf data, (∀ b ∈ r, b < 256) ∧ r.length = 16 := by
  intro r hr
  rw [recsOf] at hr
  obtain ⟨i, hi, hie⟩ := List.mem_map.mp hr
  simp only [List.mem_range] at hi
  subst hie
  constructor
  · intro b hbm
    exact hb b (List.mem_of_mem_take (mem_sliceLen _ _ _ b hbm) : b ∈ data)
  · have hbl := bodyOf_length data
    have h16 : 16 * nRecs data ≤ (bodyOf data).length := by
      rw [nRecs]
      omega
    simp [sliceLen]
    rw [nRecs] at hi
    omega

theorem recsOf_flatten (data : List Nat) (hsz : (data.length - 400) % 16 = 0) :
    (recsOf data).flatten = bodyOf data := by
  rw [recsOf]
  apply chunks_flatten 16 (nRecs data)
  rw [nRecs, bodyOf_length]
  omega

/-- The SysMem section, decomposed around its two headers. -/
theorem sysmemLines_decomp (P : PyOps) (sm : List Nat) :
    sysmemLines P sm = hdrDecoded ::
      ((fieldTab.filterMap (fieldLine P sm) ++ oLines sm) ++ hdrUnmapped :: dumpRows sm) := by
  rw [sysmemLines]

theorem midLines_skip (P : PyOps) (sm : List Nat) (h400 : sm.length = 400) :
    ∀ l ∈ fieldTab.filterMap (fieldLine P sm) ++ oLines sm, skipLine l ∧ 35 ∈ l := by
  intro l hl
  rcases List.mem_append.mp hl with hl | hl
  · obtain ⟨e, he, hfl⟩ := List.mem_filterMap.mp hl
    exact fieldLine_skip P sm h400 e he l hfl
  · exact oLines_skip sm l hl

theorem forall2_imp_mem {α β : Type} {R S : α → β → Prop} :
    ∀ {xs : List α} {ys : List β}, List.Forall₂ R xs ys →
    (∀ x ∈ xs, ∀ y, R x y → S x y) → List.Forall₂ S xs ys := by
  intro xs ys h
  induction h with
  | nil => intro _; exact .nil
  | @cons a b as bs hr hrest ih =>
      intro himp
      exact .cons (himp a (by simp) b hr) (ih fun x hx y hr2 => himp x (by simp [hx]) y hr2)

theorem mem35_ne_hdrUnmapped (l : Txt) (h : 35 ∈ l) : (l == hdrUnmapped) = false := by
  rw [beq_eq_false_iff_ne]
  intro he
  rw [he] at h
  revert h
  decide

/-- `encode_file` applied to the exact line list produced by
`decode_file` reproduces the input bytes: the records re-enter through
their `# raw:` captures, the field scan finds nothing to re-encode (every
field line still carries its raw capture), and the unmapped dump parses
back to the trailing 400 bytes. -/
theorem encFileLines_of_decode (P : PyOps) (hP : ∀ b, 35 ∉ P.fmtRec b)
    (data : List Nat) (hb : ∀ b ∈ data, b < 256)
    (hsz : (data.length - 400) % 16 = 0) (doc : List Txt)
    (hdec : decodeLines P data = .ok doc) :
    encFileLines P doc = .ok data := by
  obtain ⟨h500, rls, hmapm, hdoc⟩ := decodeLines_ok_inv P data doc hdec
  have h400 : (smOf data).length = 400 := smOf_length data h500
  have hbsm : ∀ b ∈ smOf data, b < 256 := fun b hbm => hb b (List.mem_of_mem_drop hbm)
  have hrel : List.Forall₂ (fun (r : List Nat) (l : Txt) =>
      (∃ left, goodLeft left ∧ l = withRaw left (hexConcat r)) ∧
      (∀ b ∈ r, b < 256) ∧ r.length = 16) (recsOf data) rls := by
    refine forall2_imp_mem (mapM_some_forall2 (recLine P) (recsOf data) rls hmapm) ?_
    intro r hr l hl
    exact ⟨recLine_shape P hP r l hl, recsOf_facts data hb hsz r hr⟩
  have hmid : ∀ l ∈ fieldTab.filterMap (fieldLine P (smOf data)) ++ oLines (smOf data),
      skipLine l ∧ 35 ∈ l := midLines_skip P (smOf data) h400
  have hdoc2 : doc = countLine (nRecs data) ::
      (rls ++ hdrDecoded :: ((fieldTab.filterMap (fieldLine P (smOf data)) ++
        oLines (smOf data)) ++ hdrUnmapped :: dumpRows (smOf data))) := by
    rw [hdoc, sysmemLines_decomp]
  have hER : encRecs P doc = .ok ((recsOf data).flatten, rls.length + 1) := by
    rw [hdoc2, encRecs_comment, encRecs_decoded P (recsOf data) rls _ hrel]
    rfl
  have hdropidx : doc.drop (rls.length + 1) =
      hdrDecoded :: ((fieldTab.filterMap (fieldLine P (smOf data)) ++
        oLines (smOf data)) ++ hdrUnmapped :: dumpRows (smOf data)) := by
    rw [hdoc2, List.drop_succ_cons, List.drop_left]
  have hTR : toReenc (doc.drop (rls.length + 1)) = [] := by
    rw [hdropidx, toReenc_hdrDecoded,
      toReenc_skips _ (fun l hl => (hmid l hl).1) _, toReenc_stop]
  have hdropidx1 : doc.drop (rls.length + 1 + 1) =
      (fieldTab.filterMap (fieldLine P (smOf data)) ++
        oLines (smOf data)) ++ hdrUnmapped :: dumpRows (smOf data) := by
    rw [hdoc2, List.drop_succ_cons, drop_at_cons]
  have hES : encSys P (doc.drop (rls.length + 1 + 1)) = .ok (List.replicate 400 0) := by
    rw [encSys, hdropidx1,
      encSysLoop_skips P _ (fun l hl => (hmid l hl).1) _ _ _, encSysLoop_stop]
  have hshape : doc = (countLine (nRecs data) :: (rls ++ hdrDecoded ::
      (fieldTab.filterMap (fieldLine P (smOf data)) ++ oLines (smOf data)))) ++
        hdrUnmapped :: dumpRows (smOf data) := by
    rw [hdoc2]
    simp [List.append_assoc]
  have hFI : doc.findIdx? (fun l => l == hdrUnmapped) =
      some (countLine (nRecs data) :: (rls ++ hdrDecoded ::
        (fieldTab.filterMap (fieldLine P (smOf data)) ++ oLines (smOf data)))).length := by
    rw [hshape]
    apply findIdx?_first
    · intro x hx
      rcases List.mem_cons.mp hx with hx | hx
      · subst hx
        exact mem35_ne_hdrUnmapped _ (by rw [countLine_cons]; simp)
      rcases List.mem_append.mp hx with hx | hx
      · obtain ⟨r, -, ⟨left, -, hleq⟩, -, -⟩ := forall2_mem_right hrel x hx
        exact mem35_ne_hdrUnmapped _ (hleq ▸ mem35_withRaw left (hexConcat r))
      rcases List.mem_cons.mp hx with hx | hx
      · subst hx; decide
      · exact ne_hdrUnmapped_of_skip x (hmid x hx).1
    · simp
  have hdropu : doc.drop ((countLine (nRecs data) :: (rls ++ hdrDecoded ::
      (fieldTab.filterMap (fieldLine P (smOf data)) ++ oLines (smOf data)))).length + 1) =
      dumpRows (smOf data) := by
    rw [hshape, drop_at_cons]
  have hPU : parseUnmapped (doc.drop ((countLine (nRecs data) :: (rls ++ hdrDecoded ::
      (fieldTab.filterMap (fieldLine P (smOf data)) ++ oLines (smOf data)))).length + 1)) =
      .ok (smOf data) := by
    rw [hdropu]
    exact parseUnmapped_dump (smOf data) h400 hbsm
  rw [encFileLines, hER]
  dsimp only
  rw [hTR, hES, hFI]
  dsimp only
  rw [hPU]
  dsimp only [List.foldl_nil]
  rw [recsOf_flatten data hsz]
  rw [show bodyOf data ++ smOf data = data from List.take_append_drop _ data]

/-! ### C1 -/

/-- C1 (amended): for a valid binary input (bytes, size 16·N + 400, at
least 500 bytes) whose decoded document contains no line-break character
inside any line — a string field such as ProgramLabel may inject one —
writing the decoded lines and re-encoding reproduces the input bytes
exactly, including unknown command kinds and unmapped metadata bytes. -/
theorem C1_round_trip (P : PyOps) (hP : ∀ b, 35 ∉ P.fmtRec b)
    (data : List Nat) (hb : ∀ b ∈ data, b < 256)
    (hsz : (data.length - 400) % 16 = 0) (doc : List Txt)
    (hdec : decodeLines P data = .ok doc)
    (hlines : ∀ l ∈ doc, l ≠ [] ∧ ∀ c ∈ l, isLB c = false) :
    encFileStr P (joinNL doc) = .ok data := by
  rw [encFileStr, splitlines_joinNL doc hlines]
  exact encFileLines_of_decode P hP data hb hsz doc hdec

/-- C1 counterexample: `dataCE1` is a valid input (512 = 16·7 + 400
bytes), decoding succeeds, but writing the decoded text and re-encoding
does not reproduce the input: the 0x0A inside the ProgramLabel line
splits that line in the written file, the re-parsed label loses its tail,
and the re-encoded bytes differ at the label's offset. -/
theorem C1_round_trip_cex :
    dataCE1.length = 16 * 7 + 400 ∧ (∀ b ∈ dataCE1, b < 256) ∧
    decodeLines fmt0 dataCE1 = .ok docCE1 ∧
    encFileStr fmt0 (joinNL docCE1) ≠ .ok dataCE1 := by
  exact ⟨by decide, by decide, by decide, by decide⟩

theorem C1_round_trip_witness : encFileStr fmt0 (joinNL doc0) = .ok data0 :=
  C1_round_trip fmt0 (fun _ => by show (35 : Nat) ∉ chars "0.0"; decide) data0 (by decide) (by decide) doc0
    (by decide) (by decide)

/-! ### C7 helpers -/

theorem sliceLen_length_le (bs : List Nat) (o n : Nat) : (sliceLen bs o n).length ≤ n := by
  simp [sliceLen]

theorem tabGet_bound (fld : Txt) (off : Nat) (dt : DT) (tr : Bool)
    (h : tabGet fld = some (off, dt, tr)) : off + ovLen dt ≤ 400 := by
  rw [tabGet] at h
  cases hf : fieldTab.find? (fun e => chars e.1 == fld) with
  | none => rw [hf] at h; simp at h
  | some e =>
      rw [hf] at h
      have h2 : e.2 = (off, dt, tr) := Option.some.inj h
      have he : e ∈ fieldTab := List.mem_of_find?_eq_some hf
      have hall : ∀ e ∈ fieldTab, e.2.1 + ovLen e.2.2.1 ≤ 400 := by decide
      have h4 := hall e he
      rw [h2] at h4
      exact h4

theorem toReenc_field (nl a v fld : Txt) (rest : List Txt)
    (hstrip : stripPy nl = nl) (hne : nl ≠ []) (h61 : nl.headD 0 ≠ 61)
    (hcol : hasSub [58] nl = true) (hsp : splitOnce [58] nl = some (a, v))
    (hflda : stripPy a = fld) (hraw : hasSub rawMark nl = false)
    (htabs : (tabGet fld).isSome) :
    toReenc (nl :: rest) = fld :: toReenc rest := by
  rw [toReenc, hstrip]
  rw [if_neg (by
    rw [isPrefixOf_false_of_head_ne hdrUnmapped nl (by decide) (by decide) h61 hne]
    simp)]
  rw [if_pos (by exact ⟨hcol, by simp [hraw]⟩)]
  rw [hsp]
  dsimp only
  rw [hflda, if_pos htabs]

/-- C7: if exactly one metadata field line of the decoded document is
replaced by an edited line for field `fld` (a `Field: value` line whose
raw capture has been removed), re-encoding succeeds whenever the value
encodes, and the output is the record bytes followed by the base buffer
with only the byte range owned by `fld` overlaid: every metadata byte
outside `[off, off + width)` equals the corresponding byte of the parsed
raw-dump base buffer (for a bit field the width is the 2-byte flag
word). -/
theorem C7_single_field_frame (P : PyOps) (hP : ∀ b, 35 ∉ P.fmtRec b)
    (data : List Nat) (hb : ∀ b ∈ data, b < 256)
    (hsz : (data.length - 400) % 16 = 0) (rls : List Txt)
    (hdec : decodeLines P data =
      .ok (countLine (nRecs data) :: (rls ++ sysmemLines P (smOf data))))
    (m1 m2 : List Txt) (ol : Txt)
    (hmid : fieldTab.filterMap (fieldLine P (smOf data)) ++ oLines (smOf data) =
      m1 ++ ol :: m2)
    (nl a v fld : Txt) (off : Nat) (dt : DT) (tr : Bool)
    (hstrip : stripPy nl = nl) (hne : nl ≠ []) (h61 : nl.headD 0 ≠ 61)
    (hcol : hasSub [58] nl = true) (hsp : splitOnce [58] nl = some (a, v))
    (hflda : stripPy a = fld) (hraw : hasSub rawMark nl = false)
    (htab : tabGet fld = some (off, dt, tr))
    (mapped : List Nat)
    (hmapped : encSys P ((m1 ++ nl :: m2) ++ hdrUnmapped :: dumpRows (smOf data)) =
      .ok mapped) :
    encFileLines P (countLine (nRecs data) :: (rls ++ hdrDecoded ::
        ((m1 ++ nl :: m2) ++ hdrUnmapped :: dumpRows (smOf data)))) =
      .ok (bodyOf data ++ writeAt (smOf data) off (sliceLen mapped off (ovLen dt))) ∧
    ∀ i, i < off ∨ off + ovLen dt ≤ i →
      (writeAt (smOf data) off (sliceLen mapped off (ovLen dt))).getD i 0 =
        (smOf data).getD i 0 := by
  obtain ⟨h500, rls', hmapm, hdoc⟩ := decodeLines_ok_inv P data _ hdec
  have hrls : rls = rls' := by
    have h1 := List.cons.inj hdoc
    exact List.append_cancel_right h1.2
  rw [← hrls] at hmapm
  have h400 : (smOf data).length = 400 := smOf_length data h500
  have hbsm : ∀ b ∈ smOf data, b < 256 := fun b hbm => hb b (List.mem_of_mem_drop hbm)
  have hbound : off + ovLen dt ≤ 400 := tabGet_bound fld off dt tr htab
  have hrel : List.Forall₂ (fun (r : List Nat) (l : Txt) =>
      (∃ left, goodLeft left ∧ l = withRaw left (hexConcat r)) ∧
      (∀ b ∈ r, b < 256) ∧ r.length = 16) (recsOf data) rls := by
    refine forall2_imp_mem (mapM_some_forall2 (recLine P) (recsOf data) rls hmapm) ?_
    intro r hr l hl
    exact ⟨recLine_shape P hP r l hl, recsOf_facts data hb hsz r hr⟩
  have hskips : ∀ l, l ∈ m1 ∨ l ∈ m2 → skipLine l ∧ 35 ∈ l := by
    intro l hl
    refine midLines_skip P (smOf data) h400 l ?_
    rw [hmid]
    rcases hl with hl | hl
    · exact List.mem_append.mpr (Or.inl hl)
    · exact List.mem_append.mpr (Or.inr (List.mem_cons.mpr (Or.inr hl)))
  have hnlne : (nl == hdrUnmapped) = false := by
    rw [beq_eq_false_iff_ne]
    intro he
    apply h61
    rw [he]
    decide
  have hER : encRecs P (countLine (nRecs data) :: (rls ++ hdrDecoded ::
      ((m1 ++ nl :: m2) ++ hdrUnmapped :: dumpRows (smOf data)))) =
      .ok ((recsOf data).flatten, rls.length + 1) := by
    rw [encRecs_comment, encRecs_decoded P (recsOf data) rls _ hrel]
    rfl
  have hdropidx : (countLine (nRecs data) :: (rls ++ hdrDecoded ::
      ((m1 ++ nl :: m2) ++ hdrUnmapped :: dumpRows (smOf data)))).drop (rls.length + 1) =
      hdrDecoded :: ((m1 ++ nl :: m2) ++ hdrUnmapped :: dumpRows (smOf data)) := by
    rw [List.drop_succ_cons, List.drop_left]
  have hreassoc : (m1 ++ nl :: m2) ++ hdrUnmapped :: dumpRows (smOf data) =
      m1 ++ nl :: (m2 ++ hdrUnmapped :: dumpRows (smOf data)) := by
    simp [List.append_assoc]
  have hTR : toReenc (hdrDecoded :: ((m1 ++ nl :: m2) ++
      hdrUnmapped :: dumpRows (smOf data))) = [fld] := by
    rw [toReenc_hdrDecoded, hreassoc,
      toReenc_skips m1 (fun l hl => (hskips l (Or.inl hl)).1) _,
      toReenc_field nl a v fld _ hstrip hne h61 hcol hsp hflda hraw
        (by rw [htab]; rfl),
      toReenc_skips m2 (fun l hl => (hskips l (Or.inr hl)).1) _, toReenc_stop]
  have hdropidx1 : (countLine (nRecs data) :: (rls ++ hdrDecoded ::
      ((m1 ++ nl :: m2) ++ hdrUnmapped :: dumpRows (smOf data)))).drop (rls.length + 1 + 1) =
      (m1 ++ nl :: m2) ++ hdrUnmapped :: dumpRows (smOf data) := by
    rw [List.drop_succ_cons, drop_at_cons]
  have hshape : countLine (nRecs data) :: (rls ++ hdrDecoded ::
      ((m1 ++ nl :: m2) ++ hdrUnmapped :: dumpRows (smOf data))) =
      (countLine (nRecs data) :: (rls ++ hdrDecoded :: (m1 ++ nl :: m2))) ++
        hdrUnmapped :: dumpRows (smOf data) := by
    simp [List.append_assoc]
  have hFI : (countLine (nRecs data) :: (rls ++ hdrDecoded ::
      ((m1 ++ nl :: m2) ++ hdrUnmapped :: dumpRows (smOf data)))).findIdx?
        (fun l => l == hdrUnmapped) =
      some (countLine (nRecs data) :: (rls ++ hdrDecoded :: (m1 ++ nl :: m2))).length := by
    rw [hshape]
    apply findIdx?_first
    · intro x hx
      rcases List.mem_cons.mp hx with hx | hx
      · subst hx
        exact mem35_ne_hdrUnmapped _ (by rw [countLine_cons]; simp)
      rcases List.mem_append.mp hx with hx | hx
      · obtain ⟨r, -, ⟨left, -, hleq⟩, -, -⟩ := forall2_mem_right hrel x hx
        exact mem35_ne_hdrUnmapped _ (hleq ▸ mem35_withRaw left (hexConcat r))
      rcases List.mem_cons.mp hx with hx | hx
      · subst hx; decide
      rcases List.mem_append.mp hx with hx | hx
      · exact ne_hdrUnmapped_of_skip x (hskips x (Or.inl hx)).1
      rcases List.mem_cons.mp hx with hx | hx
      · subst hx; exact hnlne
      · exact ne_hdrUnmapped_of_skip x (hskips x (Or.inr hx)).1
    · simp
  have hdropu : (countLine (nRecs data) :: (rls ++ hdrDecoded ::
      ((m1 ++ nl :: m2) ++ hdrUnmapped :: dumpRows (smOf data)))).drop
        ((countLine (nRecs data) :: (rls ++ hdrDecoded :: (m1 ++ nl :: m2))).length + 1) =
      dumpRows (smOf data) := by
    rw [hshape, drop_at_cons]
  have hPU : parseUnmapped ((countLine (nRecs data) :: (rls ++ hdrDecoded ::
      ((m1 ++ nl :: m2) ++ hdrUnmapped :: dumpRows (smOf data)))).drop
        ((countLine (nRecs data) :: (rls ++ hdrDecoded :: (m1 ++ nl :: m2))).length + 1)) =
      .ok (smOf data) := by
    rw [hdropu]
    exact parseUnmapped_dump (smOf data) h400 hbsm
  have hslice : (sliceLen mapped off (ovLen dt)).length ≤ ovLen dt :=
    sliceLen_length_le mapped off (ovLen dt)
  constructor
  · rw [encFileLines, hER]
    dsimp only
    rw [hdropidx, hTR, hdropidx1, hmapped, hFI]
    dsimp only
    rw [hPU]
    dsimp only [List.foldl_cons, List.foldl_nil]
    rw [ovl, htab]
    dsimp only
    rw [recsOf_flatten data hsz]
  · intro i hi
    rcases hi with hi | hi
    · exact writeAt_getD_lt _ _ _ _ _ hi (by omega)
    · exact writeAt_getD_ge _ _ _ _ _ (by omega) (by omega)

theorem C7_single_field_frame_witness :
    (encFileLines fmt0 (countLine (nRecs data0) :: (rls0 ++ hdrDecoded ::
        (([] ++ nlPS :: midl0.tail) ++ hdrUnmapped :: dumpRows (smOf data0)))) =
      .ok (bodyOf data0 ++ writeAt (smOf data0) 207 (sliceLen mapped0 207 (ovLen .i32)))) ∧
    (writeAt (smOf data0) 207 (sliceLen mapped0 207 (ovLen .i32))).getD 100 0 =
      (smOf data0).getD 100 0 := by
  have H := C7_single_field_frame fmt0 (fun _ => by show (35 : Nat) ∉ chars "0.0"; decide)
    data0 (by decide) (by decide) rls0 (by decide) [] midl0.tail (midl0.headD [])
    (by decide) nlPS (chars "ProgramSize") (chars " 5") (chars "ProgramSize")
    207 .i32 true (by decide) (by decide) (by decide) (by decide) (by decide)
    (by decide) (by decide) (by decide) mapped0 (by decide)
  exact ⟨H.1, H.2 100 (Or.inl (by decide))⟩

/-! ### C2 -/

/-- C2: on a flag word 0x0009, decode does emit `O1`/`O4` as True and the
other six O flags as False; but after editing `O2` to true the re-encoded
flag word is 0x0002, not the claimed 0x000B — the shared word is rebuilt
from the edited flags alone, because every non-edited O line still
carries its `# raw:` capture and is skipped, so the bit states of `O1`
and `O4` are silently dropped. -/
theorem C2_flag_word_rebuild :
    readU16 (smOf dataO) 83 = 9 ∧
    decodeLines fmt0 dataO = .ok docO ∧
    withRaw (chars "O1: True") (hex4 9) ∈ docO ∧
    withRaw (chars "O2: False") (hex4 9) ∈ docO ∧
    withRaw (chars "O3: False") (hex4 9) ∈ docO ∧
    withRaw (chars "O4: True") (hex4 9) ∈ docO ∧
    withRaw (chars "O5: False") (hex4 9) ∈ docO ∧
    withRaw (chars "O6: False") (hex4 9) ∈ docO ∧
    withRaw (chars "O7: False") (hex4 9) ∈ docO ∧
    withRaw (chars "O8: False") (hex4 9) ∈ docO ∧
    encFileLines fmt0 docO2 = .ok outO ∧
    readU16 (smOf outO) 83 = 2 ∧
    readU16 (smOf outO) 83 ≠ 11 := by
  decide

/-! ### C3 -/

/-- C3 (amended): decoding rejects with `TruncatedInput` exactly the
inputs shorter than 500 bytes; no other size check is made, and whenever
decoding succeeds the reported record count is
`(file_size - 400) / 16` rounded down (remainder bytes are dropped). -/
theorem C3_size_check (P : PyOps) (data : List Nat) :
    (decodeLines P data = .error .truncated ↔ data.length < 500) ∧
    (∀ doc, decodeLines P data = .ok doc →
      doc.headD [] = countLine ((data.length - 400) / 16)) := by
  constructor
  · constructor
    · intro h
      by_contra hlen
      rw [decodeLines, if_neg hlen] at h
      cases hm : (recsOf data).mapM (recLine P) with
      | none => rw [hm] at h; exact absurd h (by simp)
      | some rls => rw [hm] at h; exact absurd h (by simp)
    · intro hlen
      rw [decodeLines, if_pos hlen]
  · intro doc hdec
    obtain ⟨h500, rls, hmapm, hdoc⟩ := decodeLines_ok_inv P data doc hdec
    rw [hdoc, List.headD_cons]
    have hn : nRecs data = (data.length - 400) / 16 := by
      rw [nRecs, bodyOf_length]
    rw [hn]

/-- C3 counterexample: a 501-byte input is not of the form 16·N + 400,
yet decoding succeeds and reports 6 records (the odd remainder byte of
the 101-byte record region is silently dropped). -/
theorem C3_size_check_cex :
    (data501.length - 400) % 16 ≠ 0 ∧
    decodeLines fmt0 data501 = .ok doc501 ∧
    doc501.headD [] = countLine 6 := by
  decide

theorem C3_size_check_witness :
    decodeLines fmt0 (List.replicate 499 0) = .error .truncated ∧
    doc501.headD [] = countLine ((data501.length - 400) / 16) := by
  have H1 := C3_size_check fmt0 (List.replicate 499 0)
  have H2 := C3_size_check fmt0 data501
  exact ⟨H1.1.mpr (by decide), H2.2 doc501 (by decide)⟩

/-! ### C4 -/

theorem convTok_err (tok : Txt) (e : PackErr) (h : convTok tok = .error e) :
    isFormatErr e = true := by
  rw [convTok] at h
  split_ifs at h
  · cases hp : pyFloat tok with
    | some f => rw [hp] at h; exact absurd h (by simp)
    | none =>
        rw [hp] at h
        injection h with h
        rw [← h]
        rfl
  · cases hp : pyInt tok with
    | some i => rw [hp] at h; exact absurd h (by simp)
    | none =>
        rw [hp] at h
        injection h with h
        rw [← h]
        rfl

theorem mapM_except_error {α β : Type} (f : α → Except PackErr β) :
    ∀ (xs : List α) (e : PackErr), xs.mapM f = .error e → ∃ x ∈ xs, f x = .error e := by
  intro xs
  induction xs with
  | nil =>
      intro e h
      simp only [List.mapM_nil, pure, Except.pure] at h
      exact absurd h (by simp)
  | cons x xs ih =>
      intro e h
      rw [List.mapM_cons] at h
      cases hx : f x with
      | error e2 =>
          rw [hx] at h
          simp only [bind, Except.bind] at h
          injection h with h
          exact ⟨x, by simp, by rw [hx, h]⟩
      | ok b =>
          rw [hx] at h
          simp only [bind, Except.bind] at h
          cases hxs : xs.mapM f with
          | error e2 =>
              rw [hxs] at h
              simp only [bind, Except.bind] at h
              injection h with h
              obtain ⟨y, hy, hye⟩ := ih e2 hxs
              exact ⟨y, by simp [hy], by rw [hye, h]⟩
          | ok bs =>
              rw [hxs] at h
              simp only [bind, Except.bind, pure, Except.pure] at h
              exact absurd h (by simp)

/-- C4 (amended): a record text line fails with a `FormatError` when it
has fewer than two whitespace-separated tokens, when its first token is
not exactly two hex digits (wrong length or not hex), or when a
parameter token (a token at or after the first float-parsable token)
fails to parse as its expected numeric kind.  A token-count mismatch
against the registered field count is not itself detected. -/
theorem C4_format_conditions (P : PyOps) (t : Txt) :
    ((splitWS t).length < 2 → packRec P t = .error .tooFew) ∧
    (∀ t0 r, splitWS t = t0 :: r → r ≠ [] → t0.length ≠ 2 →
      packRec P t = .error .hexLen) ∧
    (∀ t0 r, splitWS t = t0 :: r → r ≠ [] → t0.length = 2 → pyHexInt t0 = none →
      packRec P t = .error .hexParse) ∧
    (∀ t0 r b u e, splitWS t = t0 :: r → r ≠ [] → t0.length = 2 →
      pyHexInt t0 = some b → b ≠ 255 → assignByte b = some u →
      ((classTok r).2.mapM convTok : Except PackErr (List ValNum)) = .error e →
      packRec P t = .error e ∧ isFormatErr e = true) := by
  refine ⟨?_, ?_, ?_, ?_⟩
  · intro hlen
    rw [packRec]
    match hs : splitWS t with
    | [] => rfl
    | [_] => rfl
    | t0 :: r0 :: rs =>
        rw [hs] at hlen
        simp only [List.length_cons] at hlen
        omega
  · intro t0 r hs hr h2
    cases r with
    | nil => exact absurd rfl hr
    | cons r0 rs =>
        rw [packRec, hs]
        dsimp only
        rw [if_pos h2]
  · intro t0 r hs hr h2 hhex
    cases r with
    | nil => exact absurd rfl hr
    | cons r0 rs =>
        rw [packRec, hs]
        dsimp only
        rw [if_neg (by simp [h2]), hhex]
  · intro t0 r b u e hs hr h2 hhex hb255 hassign hmap
    cases r with
    | nil => exact absurd rfl hr
    | cons r0 rs =>
        constructor
        · rw [packRec, hs]
          dsimp only
          rw [if_neg (by simp [h2]), hhex]
          dsimp only
          rw [if_neg hb255, hassign]
          dsimp only
          simp only [List.tail_cons]
          rw [hmap]
        · obtain ⟨x, hx, hxe⟩ := mapM_except_error convTok _ e hmap
          exact convTok_err x e hxe

/-- C4 counterexample: kind 0x36 (Loop Address) registers exactly one
field, yet a line with two numeric tokens encodes fine (the surplus token
is ignored), a line with zero numeric tokens fails with an uncaught
`IndexError` rather than a `FormatError`, and an out-of-range value fails
with an uncaught `struct.error`. -/
theorem C4_format_conditions_cex :
    packRec fmt0 (chars "36 X 5 7") = .ok [0, 0, 0, 0, 0, 0, 0, 0, 0, 0, 0, 0, 5, 0, 0, 54] ∧
    packRec fmt0 (chars "36 X") = .error .short ∧ isFormatErr .short = false ∧
    packRec fmt0 (chars "36 X 99999") = .error .range ∧ isFormatErr .range = false := by
  decide

theorem C4_format_conditions_witness :
    packRec fmt0 (chars "7") = .error .tooFew ∧
    packRec fmt0 (chars "ABC X") = .error .hexLen ∧
    packRec fmt0 (chars "GG X") = .error .hexParse ∧
    packRec fmt0 (chars "36 X 5 1.2.3") = .error .floatTok ∧
    isFormatErr .floatTok = true := by
  have H1 := C4_format_conditions fmt0 (chars "7")
  have H2 := C4_format_conditions fmt0 (chars "ABC X")
  have H3 := C4_format_conditions fmt0 (chars "GG X")
  have H4 := C4_format_conditions fmt0 (chars "36 X 5 1.2.3")
  have H4a := H4.2.2.2 (chars "36") [chars "X", chars "5", chars "1.2.3"] 54 54 .floatTok
    (by decide) (by decide) (by decide) (by decide) (by decide) (by decide) (by decide)
  exact ⟨H1.1 (by decide),
    H2.2.1 (chars "ABC") [chars "X"] (by decide) (by decide) (by decide),
    H3.2.2.1 (chars "GG") [chars "X"] (by decide) (by decide) (by decide) (by decide),
    H4a.1, H4a.2⟩

/-! ### C5 / C6 -/

theorem boolStr_isEmpty (b : Bool) : (boolStr b).isEmpty = false := by
  cases b <;> decide

/-- C5 (amended): of the four transformed fields, only ProgramSize has a
true encode/decode inverse pair.  Parsing and transforming the displayed
ProgramSize restores the stored value for every stored value; but the
int8 encode transforms receive the displayed *string*, so QuickStep
always re-encodes 1 (both `True` and `False` are nonempty), Running
HomeFirst always re-encodes 0, and EmergencyMode re-encodes 1 exactly
when the stored byte was nonzero — the stored byte survives the round
trip only when it is 1, 0, or in {0, 1} respectively. -/
theorem C5_transform_inverses (P : PyOps) (sm : List Nat) :
    (pyInt (fieldDisp P sm "ProgramSize" 207 .i32 true)).map (iTr (chars "ProgramSize"))
      = some (readI32 sm 207) ∧
    i8Tr (chars "QuickStep") (fieldDisp P sm "QuickStep" 177 .i8 true) = some 1 ∧
    i8Tr (chars "RunningHomeFirst") (fieldDisp P sm "RunningHomeFirst" 397 .i8 true)
      = some 0 ∧
    i8Tr (chars "EmergencyMode") (fieldDisp P sm "EmergencyMode" 190 .i8 true)
      = some (if readI8 sm 190 ≠ 0 then 1 else 0) := by
  refine ⟨?_, ?_, ?_, ?_⟩
  · simp only [fieldDisp]
    rw [if_pos ⟨trivial, trivial⟩, pyInt_intStr]
    simp only [Option.map]
    rw [iTr, if_pos rfl]
    congr 1
    omega
  · simp only [fieldDisp]
    rw [if_pos trivial, if_pos trivial]
    rw [i8Tr, if_pos rfl, boolStr_isEmpty]
    simp
  · simp only [fieldDisp]
    rw [if_pos trivial, if_neg (by decide), if_pos trivial]
    rw [i8Tr, if_neg (by decide), if_pos rfl, boolStr_isEmpty]
    simp
  · simp only [fieldDisp]
    rw [if_pos trivial, if_neg (by decide), if_neg (by decide), if_pos trivial]
    rw [i8Tr, if_neg (by decide), if_neg (by decide), if_pos rfl]
    by_cases hv : readI8 sm 190 ≠ 0
    · rw [if_pos hv, if_pos hv, if_pos rfl]
    · rw [if_neg hv, if_neg hv, if_neg (by decide)]

/-- C5 counterexample: a stored QuickStep byte of 0 is displayed as
`False`, and re-encoding `False` stores 1, not 0. -/
theorem C5_transform_inverses_cex :
    readI8 (List.replicate 400 0) 177 = 0 ∧
    fieldDisp fmt0 (List.replicate 400 0) "QuickStep" 177 .i8 true = chars "False" ∧
    i8Tr (chars "QuickStep") (chars "False") = some 1 ∧ (1 : Int) ≠ 0 := by
  decide

/-- C6 (amended): the displayed ProgramSize is the stored 32-bit value
minus one (the `+ 1` lives on the encode side), for every stored
value. -/
theorem C6_program_size_display (P : PyOps) (sm : List Nat) :
    fieldLine P sm ("ProgramSize", 207, .i32, true) =
      some (withRaw (chars "ProgramSize" ++ chars ": " ++ intStr (readI32 sm 207 - 1))
        (fieldRaw sm 207 .i32)) := by
  rw [fieldLine, if_neg (by decide)]
  simp only [fieldDisp]
  rw [if_pos ⟨trivial, trivial⟩]

/-- C6 counterexample: stored value 5 is displayed as `4`, not the
claimed `6`. -/
theorem C6_program_size_display_cex :
    readI32 (writeAt (List.replicate 400 0) 207 [5, 0, 0, 0]) 207 = 5 ∧
    fieldDisp fmt0 (writeAt (List.replicate 400 0) 207 [5, 0, 0, 0]) "ProgramSize" 207
      .i32 true = chars "4" ∧
    chars "4" ≠ intStr (5 + 1) := by
  decide

/-! ### C8 / C9 / C10 -/

/-- C8: for the ×100-scaled 16-bit field at offset 12 of kinds 66 and 37,
a stored 250 is displayed as `2.5`, and encoding the displayed `2.5`
stores 250 back. -/
theorem C8_scale_100 :
    recLine fmtP rec66 = some (withRaw
      (chars "42 Height Sensor Point 0.0 0.0 0.0 2.5") (hexConcat rec66)) ∧
    packRec fmtP (chars "42 Height Sensor Point 0.0 0.0 0.0 2.5") = .ok rec66 ∧
    recLine fmtP rec37 = some (withRaw
      (chars "25 Circle 0.0 0.0 0.0 2.5") (hexConcat rec37)) ∧
    packRec fmtP (chars "25 Circle 0.0 0.0 0.0 2.5") = .ok rec37 := by
  decide

/-- C9: the all-zero-then-0xFF record decodes to the literal `FF Padding`
line (its raw capture carries the exact bytes), a bare `FF Padding` line
packs back to exactly that record, and re-encoding the decoded line
reproduces the record bytes. -/
theorem C9_ff_padding (P : PyOps) :
    recLine P padRec = some (withRaw (chars "FF Padding") (hexConcat padRec)) ∧
    packRec P (chars "FF Padding") = .ok padRec ∧
    encRecs P [withRaw (chars "FF Padding") (hexConcat padRec)] = .ok (padRec, 1) := by
  refine ⟨?_, ?_, ?_⟩
  · rw [recLine, if_pos (by decide)]
  · rfl
  · rfl

/-- C10: any record line (without raw capture) whose first token is `FF`
packs to the fixed padding block, whatever tokens follow: non-zero
payload bytes of a kind-127 record are not reconstructed from text. -/
theorem C10_ff_ignores_params (P : PyOps) (t t0 : Txt) (r : List Txt)
    (hsp : splitWS t = t0 :: r) (hr : r ≠ []) (h0 : t0 = chars "FF") :
    packRec P t = .ok padRec := by
  subst h0
  cases r with
  | nil => exact absurd rfl hr
  | cons r0 rs =>
      rw [packRec, hsp]
      dsimp only
      rw [if_neg (by decide)]
      rw [show pyHexInt (chars "FF") = some 255 from by decide]
      dsimp only
      rw [if_pos rfl]

theorem C10_ff_ignores_params_witness :
    packRec fmt0 (chars "FF Padding 1 2 3") = .ok padRec :=
  C10_ff_ignores_params fmt0 (chars "FF Padding 1 2 3") (chars "FF")
    [chars "Padding", chars "1", chars "2", chars "3"] (by decide) (by decide) rfl
